import Mathlib

/-!
# Game of Life server: embedding of `main.go` and `router.go`

The Go program keeps one process-wide `gameState` and a second, pre-allocated
`backupGrid`.  A value of type `[][]Cell` is a list of row slices, and every row
slice points at a backing array that lives on the heap.  Writes such as
`backupGrid[y][x].Alive = v` mutate a backing array, so two grids that share a
row observe each other's writes.  The embedding therefore keeps

* a `Heap` of backing arrays, addressed by natural numbers, and
* grids as lists of row addresses,

and every operation that indexes a slice is fallible (`none` is a Go panic).
-/

namespace GameOfLife

/-! ## Data model -/

/-- The Go struct `Cell` with its single field `Alive`. -/
structure Cell where
  Alive : Bool
  deriving DecidableEq, Repr

/-- Backing arrays of the row slices: address `a` holds the cells of one row. -/
abbrev Heap := List (List Cell)

/-- A Go value of type `[][]Cell`: the row slices, each given by the address of
its backing array.  The outer slice is never written after start-up, only the
rows are, so it is kept by value. -/
abbrev Grid := List Nat

/-- Arithmetic on Go's `int`, 64 bits wide: a result is reduced to the
two's-complement range from `-2^63` to `2^63 - 1`, so `2^63 - 1` plus one is
`-2^63`. -/
def wrapInt (n : Int) : Int :=
  (n + 9223372036854775808) % 18446744073709551616 - 9223372036854775808

/-- The Go struct `GameState`.  `Width`, `Height` and `Step` are Go `int`s.
`Width` and `Height` are only compared and never computed with; the increment
`Step++` is taken with `wrapInt`. -/
structure GameState where
  Grid : Grid
  Width : Int
  Height : Int
  Running : Bool
  Step : Int
  deriving DecidableEq, Repr

/-- The mutable globals of the program (`gameState`, `backupGrid`) together
with the heap that their row slices point into. -/
structure World where
  heap : Heap
  gameState : GameState
  backupGrid : Grid
  deriving DecidableEq, Repr

/-! ## Slice access -/

/-- Go indexing `l[i]` with an `int` index: out of range is a panic. -/
def index {α : Type} (l : List α) (i : Int) : Option α :=
  if i < 0 then none else l[i.toNat]?

/-- The expression `len(grid[y])`. -/
def rowLen (h : Heap) (grid : Grid) (y : Int) : Option Nat := do
  let a ← index grid y
  let row ← h[a]?
  pure row.length

/-- The expression `grid[y][x]`. -/
def load (h : Heap) (grid : Grid) (y x : Int) : Option Cell := do
  let a ← index grid y
  let row ← h[a]?
  index row x

/-- The statement `grid[y][x].Alive = v`. -/
def storeAlive (h : Heap) (grid : Grid) (y x : Int) (v : Bool) : Option Heap := do
  let a ← index grid y
  let row ← h[a]?
  let c ← index row x
  pure (h.set a (row.set x.toNat { c with Alive := v }))

/-- The loop `for i := 0; i < n; i++ { body }` threading the state `s`. -/
def forRange {σ : Type} (n : Nat) (body : σ → Nat → Option σ) (s : σ) : Option σ :=
  (List.range n).foldlM body s

/-! ## The simulation engine -/

/-- The wrap of one neighbour coordinate in `countNeighbors`:
`if n < 0 { n = dim - 1 } else if n >= dim { n = 0 }`. -/
def wrap (n dim : Int) : Int :=
  if n < 0 then dim - 1 else if n ≥ dim then 0 else n

/-- The body of the inner loop of `countNeighbors` for one offset `(dx, dy)`. -/
def neighborStep (h : Heap) (grid : Grid) (height width x y dy : Int)
    (count dx : Int) : Option Int :=
  if dx = 0 ∧ dy = 0 then
    pure count
  else do
    let ny := wrap (y + dy) height
    let nx := wrap (x + dx) width
    let c ← load h grid ny nx
    if c.Alive then pure (count + 1) else pure count

/-- The function `countNeighbors(grid, x, y)`. -/
def countNeighbors (h : Heap) (grid : Grid) (x y : Int) : Option Int := do
  let height : Int := grid.length
  let width : Int ← rowLen h grid 0
  [-1, 0, 1].foldlM
    (fun count dy => [-1, 0, 1].foldlM (neighborStep h grid height width x y dy) count) 0

/-- The body of the inner loop of `nextGeneration` for the cell `(x, y)`: it
reads `grid` and writes `backupGrid` in the heap as it is at that moment. -/
def cellStep (grid backup : Grid) (y : Nat) (h : Heap) (x : Nat) : Option Heap := do
  let neighbors ← countNeighbors h grid x y
  let c ← load h grid y x
  let alive := c.Alive
  if alive && (neighbors == 2 || neighbors == 3) then
    storeAlive h backup y x true
  else if !alive && neighbors == 3 then
    storeAlive h backup y x true
  else
    storeAlive h backup y x false

/-- The function `nextGeneration(grid)`: fills `backupGrid` from `grid`, swaps
`gameState.Grid` with `backupGrid` and returns the new `gameState.Grid`. -/
def nextGeneration (w : World) (grid : Grid) : Option (World × Grid) := do
  let height := grid.length
  let width ← rowLen w.heap grid 0
  let heap ← forRange height
    (fun h y => forRange width (cellStep grid w.backupGrid y) h) w.heap
  let w1 : World :=
    { heap := heap
      gameState := { w.gameState with Grid := w.backupGrid }
      backupGrid := w.gameState.Grid }
  pure (w1, w1.gameState.Grid)

/-! ## Rendering -/

/-- The verb `%d` of `fmt` applied to a Go `int`. -/
def fmtInt (n : Int) : String := toString n

/-- The format string shared by `renderGrid` and `renderCell`, applied to its
three arguments `class`, `x`, `y`. -/
def cellMarkup (cls : String) (x y : Int) : String :=
  "<div class=\"" ++ cls ++ "\" hx-post=\"/api/toggle\" hx-vals=\x27\x7b\"x\":" ++ fmtInt x
    ++ ",\"y\":" ++ fmtInt y ++ "\x7d\x27 hx-target=\"this\" hx-swap=\"outerHTML\"></div>"

/-- The function `renderCell(w, cell, x, y)`: the bytes it writes. -/
def renderCell (cell : Cell) (x y : Int) : String :=
  let cls := "cell"
  let cls := if cell.Alive then cls ++ " alive" else cls
  cellMarkup cls x y

/-- The body of the inner loop of `renderGrid`: appends one element to the builder. -/
def renderStep (h : Heap) (grid : Grid) (y : Nat) (builder : String) (x : Nat) : Option String := do
  let c ← load h grid y x
  let cls := if c.Alive then "cell alive" else "cell"
  pure (builder ++ cellMarkup cls x y)

/-- The function `renderGrid(w, grid)`: the bytes it writes.  `len(grid[0])` is
evaluated first, for `builder.Grow`. -/
def renderGrid (h : Heap) (grid : Grid) : Option String := do
  let width ← rowLen h grid 0
  forRange grid.length (fun builder y => forRange width (renderStep h grid y) builder) ""

/-! ## Handlers -/

/-- What a handler leaves in the `http.ResponseWriter`. -/
structure Response where
  status : Nat
  contentType : String
  body : String
  deriving DecidableEq, Repr

/-- The library call `http.Error(w, msg, code)`. -/
def httpError (msg : String) (code : Nat) : Response :=
  { status := code, contentType := "text/plain; charset=utf-8", body := msg ++ "\n" }

/-- What `toggleCellHandler` reads from the request: whether `r.ParseForm()`
fails, and the results of `strconv.Atoi(r.FormValue("x"))` and of
`strconv.Atoi(r.FormValue("y"))`, `none` standing for a non-nil error. -/
structure ToggleRequest where
  formError : Bool
  x : Option Int
  y : Option Int
  deriving DecidableEq, Repr

/-- The handler `stepHandler`. -/
def stepHandler (w : World) : Option (World × Response) := do
  let (w1, g) ← nextGeneration w w.gameState.Grid
  let w2 : World := { w1 with gameState := { w1.gameState with Grid := g } }
  let w3 : World :=
    { w2 with gameState := { w2.gameState with Step := wrapInt (w2.gameState.Step + 1) } }
  let w4 : World := { w3 with gameState := { w3.gameState with Running := false } }
  let body ← renderGrid w4.heap w4.gameState.Grid
  pure (w4, { status := 200, contentType := "text/html", body := body })

/-- The handler `autoStepHandler`. -/
def autoStepHandler (w : World) : Option (World × Response) :=
  if !w.gameState.Running then do
    let body ← renderGrid w.heap w.gameState.Grid
    pure (w, { status := 200, contentType := "text/html", body := body })
  else do
    let (w1, g) ← nextGeneration w w.gameState.Grid
    let w2 : World := { w1 with gameState := { w1.gameState with Grid := g } }
    let w3 : World :=
      { w2 with gameState := { w2.gameState with Step := wrapInt (w2.gameState.Step + 1) } }
    let body ← renderGrid w3.heap w3.gameState.Grid
    pure (w3, { status := 200, contentType := "text/html", body := body })

/-- The handler `toggleCellHandler`. -/
def toggleCellHandler (w : World) (r : ToggleRequest) : Option (World × Response) :=
  if r.formError then
    pure (w, httpError "Invalid form data" 400)
  else
    match r.x, r.y with
    | some x, some y =>
      if x < 0 ∨ x ≥ w.gameState.Width ∨ y < 0 ∨ y ≥ w.gameState.Height then
        pure (w, httpError "Invalid coordinates" 400)
      else do
        let c ← load w.heap w.gameState.Grid y x
        let heap ← storeAlive w.heap w.gameState.Grid y x (!c.Alive)
        let w1 : World := { w with heap := heap }
        let c1 ← load w1.heap w1.gameState.Grid y x
        pure (w1, { status := 200, contentType := "text/html", body := renderCell c1 x y })
    | _, _ => pure (w, httpError "Invalid coordinates" 400)

/-- The handler `clearHandler`: its loops run over `gameState.Height` and
`gameState.Width`, not over the lengths of the slices. -/
def clearHandler (w : World) : Option (World × Response) := do
  let heap ← forRange w.gameState.Height.toNat
    (fun h y => forRange w.gameState.Width.toNat
      (fun h x => storeAlive h w.gameState.Grid y x false) h) w.heap
  let w1 : World := { w with heap := heap }
  let w2 : World := { w1 with gameState := { w1.gameState with Step := 0 } }
  let w3 : World := { w2 with gameState := { w2.gameState with Running := false } }
  let body ← renderGrid w3.heap w3.gameState.Grid
  pure (w3, { status := 200, contentType := "text/html", body := body })

/-- The constant `0.3` of `rand.Float32() < 0.3`: converted to `float32` it is
the nearest `float32`, `0x3E99999A`, that is `10066330 / 2^25`. -/
def aliveThreshold : ℚ := 10066330 / 33554432

/-- The body of the inner loop of `randomHandler`.  The state carries the heap
and the number of calls of `rand.Float32()` made so far; `draws k` is the value
of call number `k` after `rand.Seed`, a `float32` taken as the rational it is. -/
def randomStep (draws : Nat → ℚ) (grid : Grid) (y : Nat) (s : Heap × Nat) (x : Nat) :
    Option (Heap × Nat) := do
  let v := decide (draws s.2 < aliveThreshold)
  let h ← storeAlive s.1 grid y x v
  pure (h, s.2 + 1)

/-- The handler `randomHandler`, for the sequence `draws` that the freshly
seeded source produces. -/
def randomHandler (w : World) (draws : Nat → ℚ) : Option (World × Response) := do
  let s ← forRange w.gameState.Height.toNat
    (fun s y => forRange w.gameState.Width.toNat (randomStep draws w.gameState.Grid y) s)
    (w.heap, 0)
  let w1 : World := { w with heap := s.1 }
  let w2 : World := { w1 with gameState := { w1.gameState with Step := 0 } }
  let w3 : World := { w2 with gameState := { w2.gameState with Running := false } }
  let body ← renderGrid w3.heap w3.gameState.Grid
  pure (w3, { status := 200, contentType := "text/html", body := body })

/-- The format string of `toggleAutoHandler` applied to `buttonText`. -/
def buttonMarkup (buttonText : String) : String :=
  "<button class=\"btn btn-success\" id=\"auto-toggle\" hx-post=\"/api/toggle-auto\" hx-target=\"#auto-controls\" hx-swap=\"innerHTML\">"
    ++ buttonText ++ "</button>"

/-- The handler `toggleAutoHandler`; it indexes nothing and cannot fail. -/
def toggleAutoHandler (w : World) : World × Response :=
  let w1 : World := { w with gameState := { w.gameState with Running := !w.gameState.Running } }
  let buttonText := if w1.gameState.Running then "Auto Stop" else "Auto Start"
  (w1, { status := 200, contentType := "text/html", body := buttonMarkup buttonText })

/-! ## Router (`router.go`) -/

/-- The Go struct `Route`; the handler functions are kept abstract in `η`. -/
structure Route (η : Type) where
  Method : String
  Path : String
  Handler : η

/-- The Go struct `Router`. -/
structure Router (η : Type) where
  routes : List (Route η)

/-- The function `NewRouter`. -/
def NewRouter {η : Type} : Router η := { routes := [] }

/-- The method `HandleFunc`: appends one route. -/
def Router.HandleFunc {η : Type} (r : Router η) (method path : String) (handler : η) :
    Router η :=
  { routes := r.routes ++ [{ Method := method, Path := path, Handler := handler }] }

/-- What `ServeHTTP` does with a request: it calls the handler of a route, or
hands the request to the file server under `static`, or answers `http.NotFound`. -/
inductive Dispatch (η : Type) where
  | handler (h : η)
  | static
  | notFound
  deriving DecidableEq, Repr

/-- The test `strings.HasPrefix(req.URL.Path, "/static/")`. -/
def isStatic (path : String) : Bool :=
  "/static/".toList.isPrefixOf path.toList

/-- The loop of `ServeHTTP` over `r.routes`: the first route whose method and
path both equal those of the request. -/
def matchRoute {η : Type} : List (Route η) → String → String → Option η
  | [], _, _ => none
  | route :: rest, method, path =>
    if route.Method = method ∧ route.Path = path then some route.Handler
    else matchRoute rest method path

/-- The method `ServeHTTP` on a request with the given method and URL path. -/
def Router.ServeHTTP {η : Type} (r : Router η) (method path : String) : Dispatch η :=
  if isStatic path then Dispatch.static
  else
    match matchRoute r.routes method path with
    | some h => Dispatch.handler h
    | none => Dispatch.notFound

/-- The router that `main` builds, each handler named by its Go identifier. -/
def mainRouter : Router String :=
  ((((((((((NewRouter.HandleFunc "GET" "/" "homeHandler").HandleFunc
    "GET" "/api/state" "getStateHandler").HandleFunc
    "POST" "/api/step" "stepHandler").HandleFunc
    "POST" "/api/toggle" "toggleCellHandler").HandleFunc
    "POST" "/api/clear" "clearHandler").HandleFunc
    "POST" "/api/random" "randomHandler").HandleFunc
    "POST" "/api/toggle-auto" "toggleAutoHandler").HandleFunc
    "POST" "/api/auto-step" "autoStepHandler").HandleFunc
    "GET" "/api/step-count" "stepCountHandler").HandleFunc
    "GET" "/api/status" "statusHandler")

/-! ## Start-up and the operations on the state -/

/-- The allocation `make([]Cell, n)`: a fresh backing array of `n` zero cells
at the next free address. -/
def makeRow (h : Heap) (n : Nat) : Heap × Nat :=
  (h ++ [List.replicate n { Alive := false }], h.length)

/-- The body of the loop of `main`: `gameState.Grid[i] = make([]Cell, Width)` and
`backupGrid[i] = make([]Cell, Width)`.  The two outer slices are represented by
the rows assigned so far. -/
def allocStep (width : Nat) (s : Heap × Grid × Grid) (_i : Nat) : Heap × Grid × Grid :=
  let r1 := makeRow s.1 width
  let r2 := makeRow r1.1 width
  (r2.1, s.2.1 ++ [r1.2], s.2.2 ++ [r2.2])

/-- The state that `main` builds before it starts the server: `Width` 50,
`Height` 30, not running, step 0, all cells of both buffers zero. -/
def mainInit : World :=
  let s := (List.range 30).foldl (allocStep 50) ([], [], [])
  { heap := s.1
    gameState := { Grid := s.2.1, Width := 50, Height := 30, Running := false, Step := 0 }
    backupGrid := s.2.2 }

/-- The operations that mutate the state, each with what it reads from its
request or from the random source. -/
inductive Op where
  | step
  | autoStep
  | toggleCell (r : ToggleRequest)
  | clear
  | random (draws : Nat → ℚ)
  | toggleAuto

/-- The state that the handler of an operation leaves (`none`: the handler panics). -/
def Op.apply (w : World) : Op → Option World
  | Op.step => (stepHandler w).map Prod.fst
  | Op.autoStep => (autoStepHandler w).map Prod.fst
  | Op.toggleCell r => (toggleCellHandler w r).map Prod.fst
  | Op.clear => (clearHandler w).map Prod.fst
  | Op.random draws => (randomHandler w draws).map Prod.fst
  | Op.toggleAuto => some (toggleAutoHandler w).1

/-- The states reachable from the initial state by the operations. -/
inductive Reachable : World → Prop where
  | init : Reachable mainInit
  | next (w w1 : World) (op : Op) : Reachable w → op.apply w = some w1 → Reachable w1

/-! ## Vocabulary of the specifications -/

/-- Shape of a grid: `height` rows, each row slice backed by an array of
`width` cells in the heap. -/
def GridOK (h : Heap) (grid : Grid) (height width : Nat) : Prop :=
  grid.length = height ∧ ∀ a ∈ grid, (h[a]?).map List.length = some width

instance (h : Heap) (grid : Grid) (height width : Nat) :
    Decidable (GridOK h grid height width) := by
  unfold GridOK; infer_instance

/-- The grid invariant of the program state: positive dimensions, the current
grid and the scratch buffer both `Height` rows of `Width` cells, and all their
rows distinct backing arrays (the two buffers share nothing). -/
def Invariant (w : World) : Prop :=
  0 < w.gameState.Height ∧ 0 < w.gameState.Width ∧
  GridOK w.heap w.gameState.Grid w.gameState.Height.toNat w.gameState.Width.toNat ∧
  GridOK w.heap w.backupGrid w.gameState.Height.toNat w.gameState.Width.toNat ∧
  (w.gameState.Grid ++ w.backupGrid).Nodup

instance (w : World) : Decidable (Invariant w) := by
  unfold Invariant; infer_instance

/-- Two heaps hold the same rows at the addresses of `grid`. -/
def AgreeOn (grid : Grid) (h h1 : Heap) : Prop := ∀ a ∈ grid, h1[a]? = h[a]?

/-- The three branches of `nextGeneration` as one Boolean: the value written
for a cell with state `alive` and `n` live neighbours. -/
def rule (alive : Bool) (n : Int) : Bool :=
  if alive && (n == 2 || n == 3) then true else if !alive && n == 3 then true else false

/-- Whether `grid[y][x]` is a live cell (false when the access is out of range). -/
def liveAt (h : Heap) (grid : Grid) (y x : Int) : Bool :=
  match load h grid y x with
  | some c => c.Alive
  | none => false

/-- The eight offsets `(dx, dy)` in the order in which `countNeighbors` visits them. -/
def offsets : List (Int × Int) :=
  [(-1, -1), (0, -1), (1, -1), (-1, 0), (1, 0), (-1, 1), (0, 1), (1, 1)]

/-- Number of offsets whose neighbour, wrapped as the code wraps it, is alive. -/
def liveNeighbors (h : Heap) (grid : Grid) (height width : Nat) (x y : Int) : Nat :=
  offsets.countP (fun d => liveAt h grid (wrap (y + d.2) height) (wrap (x + d.1) width))

/-- The cell that one generation step gives `(x, y)`, read off heap `h`. -/
def nextCell (h : Heap) (grid : Grid) (height width : Nat) (y x : Nat) : Cell :=
  ⟨rule (liveAt h grid y x) (liveNeighbors h grid height width x y)⟩

/-- The offsets `{-1,0,1} x {-1,0,1}` other than `(0,0)`, as a set. -/
def neighborOffsets : Finset (Int × Int) :=
  (({-1, 0, 1} : Finset Int) ×ˢ ({-1, 0, 1} : Finset Int)).erase (0, 0)

/-- Number of live wrapped neighbours of `(x, y)` on the board `f`. -/
def countOn (f : Int → Int → Bool) (height width : Int) (x y : Int) : Nat :=
  offsets.countP (fun d => f (wrap (y + d.2) height) (wrap (x + d.1) width))

/-- The state that `nextGeneration` leaves when its loops end with heap `h1`. -/
def swapped (w : World) (h1 : Heap) : World :=
  { heap := h1
    gameState := { w.gameState with Grid := w.backupGrid }
    backupGrid := w.gameState.Grid }

/-- Number of offsets `(dx, dy)` at which both `a dx` and `b dy` hold. -/
def count8 (a b : Int → Bool) : Nat :=
  offsets.countP (fun d => a d.1 && b d.2)

/-- Whether the wrapped position `n + d` is one of the two positions `s0`, `s1`. -/
def spanAt (n dim s0 s1 : Int) (d : Int) : Bool :=
  decide (wrap (n + d) dim = s0 ∨ wrap (n + d) dim = s1)

/-- Membership of `(x, y)` in the 2x2 block with corner `(x0, y0)`, coordinates
taken modulo the dimensions. -/
def inBlock (x0 y0 height width : Int) (y x : Int) : Bool :=
  decide ((x = x0 % width ∨ x = (x0 + 1) % width) ∧ (y = y0 % height ∨ y = (y0 + 1) % height))

/-- The values of type `float32` in `[0, 1)`, the range of `rand.Float32()`:
`m / 2^k` with a 24-bit `m` and `24 <= k <= 149`. -/
def IsUnitFloat32 (q : ℚ) : Prop :=
  ∃ m k : ℕ, m < 16777216 ∧ 24 ≤ k ∧ k ≤ 149 ∧ q = (m : ℚ) / 2 ^ k

/-! ## Example states -/

/-- A 3x3 state laid out as `main` allocates rows (current grid at the even
addresses, scratch buffer at the odd ones): the current grid has exactly the
cells `(1,0)`, `(1,1)`, `(1,2)` alive, the scratch buffer holds leftovers. -/
def blinker3 : World :=
  { heap := [[⟨false⟩, ⟨true⟩, ⟨false⟩], [⟨true⟩, ⟨true⟩, ⟨false⟩],
             [⟨false⟩, ⟨true⟩, ⟨false⟩], [⟨false⟩, ⟨false⟩, ⟨true⟩],
             [⟨false⟩, ⟨true⟩, ⟨false⟩], [⟨true⟩, ⟨false⟩, ⟨true⟩]]
    gameState := { Grid := [0, 2, 4], Width := 3, Height := 3, Running := false, Step := 0 }
    backupGrid := [1, 3, 5] }

/-- A 4x4 state whose current grid holds the 2x2 block with corner `(3, 3)`,
which straddles both edges: the live cells are `(3,3)`, `(0,3)`, `(3,0)`, `(0,0)`. -/
def block4 : World :=
  { heap := [[⟨true⟩, ⟨false⟩, ⟨false⟩, ⟨true⟩], [⟨true⟩, ⟨true⟩, ⟨false⟩, ⟨true⟩],
             [⟨false⟩, ⟨false⟩, ⟨false⟩, ⟨false⟩], [⟨false⟩, ⟨true⟩, ⟨true⟩, ⟨false⟩],
             [⟨false⟩, ⟨false⟩, ⟨false⟩, ⟨false⟩], [⟨true⟩, ⟨true⟩, ⟨true⟩, ⟨true⟩],
             [⟨true⟩, ⟨false⟩, ⟨false⟩, ⟨true⟩], [⟨false⟩, ⟨false⟩, ⟨false⟩, ⟨true⟩]]
    gameState := { Grid := [0, 2, 4, 6], Width := 4, Height := 4, Running := true, Step := 7 }
    backupGrid := [1, 3, 5, 7] }

/-- A 3x3 state whose current grid is all dead while the scratch buffer is full. -/
def dead3 : World :=
  { heap := [[⟨false⟩, ⟨false⟩, ⟨false⟩], [⟨true⟩, ⟨true⟩, ⟨true⟩],
             [⟨false⟩, ⟨false⟩, ⟨false⟩], [⟨true⟩, ⟨true⟩, ⟨true⟩],
             [⟨false⟩, ⟨false⟩, ⟨false⟩], [⟨true⟩, ⟨true⟩, ⟨true⟩]]
    gameState := { Grid := [0, 2, 4], Width := 3, Height := 3, Running := false, Step := 2 }
    backupGrid := [1, 3, 5] }

/-- A 3x3 state with the same current grid as `blinker3`, cell for cell, at
other addresses, with another scratch buffer, step counter and running flag. -/
def blinker3b : World :=
  { heap := [[⟨false⟩, ⟨false⟩, ⟨false⟩], [⟨true⟩, ⟨false⟩, ⟨false⟩],
             [⟨true⟩, ⟨true⟩, ⟨true⟩], [⟨false⟩, ⟨true⟩, ⟨false⟩],
             [⟨false⟩, ⟨true⟩, ⟨false⟩], [⟨false⟩, ⟨true⟩, ⟨false⟩]]
    gameState := { Grid := [3, 4, 5], Width := 3, Height := 3, Running := true, Step := 41 }
    backupGrid := [0, 1, 2] }

/-- A router with one route registered under the reserved prefix. -/
def shadowedRouter : Router String :=
  NewRouter.HandleFunc "GET" "/static/app.js" "appHandler"

/-- The cells `(x, y)` of a `height` by `width` grid in row-major order. -/
def rowMajor (height width : Nat) : List (Nat × Nat) :=
  (List.range height).flatMap (fun y => (List.range width).map (fun x => (x, y)))

/-- The rendering the specification describes: the concatenation, over the
cells in row-major order, of what `renderCell` writes for each cell of the
board `cells` with its coordinates. -/
def renderGridSpec (cells : Nat → Nat → Cell) (height width : Nat) : String :=
  ((rowMajor height width).map (fun p => renderCell (cells p.2 p.1) p.1 p.2)).foldl
    (fun acc part => acc ++ part) ""

/-- The wrapped positions `(nx, ny)` that `countNeighbors` inspects for the
cell `(x, y)`, in the order of its loops. -/
def neighborPositions (height width x y : Int) : List (Int × Int) :=
  offsets.map (fun d => (wrap (x + d.1) width, wrap (y + d.2) height))

/-- A 1x1 state whose single cell is alive. -/
def single1 : World :=
  { heap := [[⟨true⟩], [⟨true⟩]]
    gameState := { Grid := [0], Width := 1, Height := 1, Running := false, Step := 0 }
    backupGrid := [1] }

/-- Whether the wrapped position `n + d` is the position `c`. -/
def ptAt (n dim c : Int) (d : Int) : Bool :=
  decide (wrap (n + d) dim = c)

/-- Whether the wrapped position `n + d` is one of the three positions `cm`, `c`, `cp`. -/
def sp3At (n dim cm c cp : Int) (d : Int) : Bool :=
  decide (wrap (n + d) dim = cm ∨ wrap (n + d) dim = c ∨ wrap (n + d) dim = cp)

/-- The vertical blinker centred at `(x0, y0)`: the cells `(x0, y0 - 1)`,
`(x0, y0)`, `(x0, y0 + 1)`, coordinates modulo the dimensions. -/
def blinkerV (x0 y0 height width : Int) (y x : Int) : Bool :=
  decide (x = x0 % width) &&
    decide (y = (y0 - 1) % height ∨ y = y0 % height ∨ y = (y0 + 1) % height)

/-- The horizontal blinker centred at `(x0, y0)`: the cells `(x0 - 1, y0)`,
`(x0, y0)`, `(x0 + 1, y0)`, coordinates modulo the dimensions. -/
def blinkerH (x0 y0 height width : Int) (y x : Int) : Bool :=
  decide (x = (x0 - 1) % width ∨ x = x0 % width ∨ x = (x0 + 1) % width) &&
    decide (y = y0 % height)

/-- A 4x4 state whose current grid holds the vertical blinker centred at
`(0, 0)`, which straddles the top edge: the live cells are `(0,3)`, `(0,0)`, `(0,1)`. -/
def blinker4 : World :=
  { heap := [[⟨true⟩, ⟨false⟩, ⟨false⟩, ⟨false⟩], [⟨true⟩, ⟨true⟩, ⟨false⟩, ⟨true⟩],
             [⟨true⟩, ⟨false⟩, ⟨false⟩, ⟨false⟩], [⟨false⟩, ⟨true⟩, ⟨true⟩, ⟨false⟩],
             [⟨false⟩, ⟨false⟩, ⟨false⟩, ⟨false⟩], [⟨true⟩, ⟨true⟩, ⟨true⟩, ⟨true⟩],
             [⟨true⟩, ⟨false⟩, ⟨false⟩, ⟨false⟩], [⟨false⟩, ⟨false⟩, ⟨false⟩, ⟨true⟩]]
    gameState := { Grid := [0, 2, 4, 6], Width := 4, Height := 4, Running := true, Step := 3 }
    backupGrid := [1, 3, 5, 7] }

/-- The state `block4` with the step counter at the largest `int`. -/
def stepMax4 : World :=
  { block4 with gameState := { block4.gameState with Step := 9223372036854775807 } }

/-! ## Slice access and framing lemmas -/

theorem index_natCast {α : Type} (l : List α) (n : Nat) : index l (n : Int) = l[n]? := by
  simp [index]

theorem index_of_range {α : Type} (l : List α) (i : Int) (h0 : 0 ≤ i) (h1 : i < l.length) :
    ∃ a, index l i = some a ∧ l[i.toNat]? = some a := by
  have hlt : i.toNat < l.length := by omega
  refine ⟨l[i.toNat], ?_, List.getElem?_eq_getElem hlt⟩
  simp [index, List.getElem?_eq_getElem hlt]; omega

theorem GridOK.row {h : Heap} {grid : Grid} {height width : Nat} (ok : GridOK h grid height width)
    {a : Nat} (ha : a ∈ grid) : ∃ row, h[a]? = some row ∧ row.length = width := by
  have := ok.2 a ha
  cases hr : h[a]? with
  | none => simp [hr] at this
  | some row => exact ⟨row, rfl, by simpa [hr] using this⟩

theorem load_of_range {h : Heap} {grid : Grid} {height width : Nat}
    (ok : GridOK h grid height width) (y x : Int)
    (hy0 : 0 ≤ y) (hy : y < height) (hx0 : 0 ≤ x) (hx : x < width) :
    ∃ a row c, grid[y.toNat]? = some a ∧ h[a]? = some row ∧ row.length = width ∧
      row[x.toNat]? = some c ∧ load h grid y x = some c := by
  obtain ⟨a, ha, ha2⟩ := index_of_range grid y hy0 (by rw [ok.1]; exact hy)
  obtain ⟨row, hrow, hlen⟩ := ok.row (List.getElem?_mem ha2)
  obtain ⟨c, hc, hc2⟩ := index_of_range row x hx0 (by rw [hlen]; exact hx)
  exact ⟨a, row, c, ha2, hrow, hlen, hc2, by simp [load, ha, hrow, hc]⟩

theorem rowLen_zero {h : Heap} {grid : Grid} {height width : Nat}
    (ok : GridOK h grid height width) (hh : 0 < height) : rowLen h grid 0 = some width := by
  obtain ⟨a, ha, ha2⟩ := index_of_range grid 0 (le_refl _) (by rw [ok.1]; exact_mod_cast hh)
  obtain ⟨row, hrow, hlen⟩ := ok.row (List.getElem?_mem ha2)
  simp [rowLen, ha, hrow, hlen]

theorem load_agree {grid : Grid} {h h1 : Heap} (ag : AgreeOn grid h h1) (y x : Int) :
    load h1 grid y x = load h grid y x := by
  unfold load
  cases hi : index grid y with
  | none => rfl
  | some a =>
    have ha : a ∈ grid := by
      unfold index at hi
      split at hi
      · cases hi
      · exact List.getElem?_mem hi
    simp [ag a ha]

theorem rowLen_agree {grid : Grid} {h h1 : Heap} (ag : AgreeOn grid h h1) (y : Int) :
    rowLen h1 grid y = rowLen h grid y := by
  unfold rowLen
  cases hi : index grid y with
  | none => rfl
  | some a =>
    have ha : a ∈ grid := by
      unfold index at hi
      split at hi
      · cases hi
      · exact List.getElem?_mem hi
    simp [ag a ha]

theorem countNeighbors_agree {grid : Grid} {h h1 : Heap} (ag : AgreeOn grid h h1) (x y : Int) :
    countNeighbors h1 grid x y = countNeighbors h grid x y := by
  unfold countNeighbors
  rw [rowLen_agree ag]
  have : ∀ (height width dy : Int), neighborStep h1 grid height width x y dy
      = neighborStep h grid height width x y dy := by
    intro height width dy
    funext count dx
    simp only [neighborStep, load_agree ag]
  simp only [this]

theorem wrap_range (n dim d : Int) (h0 : 0 ≤ n) (h1 : n < dim) :
    0 ≤ wrap (n + d) dim ∧ wrap (n + d) dim < dim := by
  unfold wrap
  split_ifs <;> constructor <;> omega

theorem neighborStep_eq {h : Heap} {grid : Grid} {height width : Nat}
    (ok : GridOK h grid height width) {x y : Int}
    (hx0 : 0 ≤ x) (hx : x < width) (hy0 : 0 ≤ y) (hy : y < height)
    (dy count dx : Int)
    (hne : ¬ (dx = 0 ∧ dy = 0)) :
    neighborStep h grid height width x y dy count dx
      = some (count + if liveAt h grid (wrap (y + dy) height) (wrap (x + dx) width) then 1 else 0) := by
  obtain ⟨hy1, hy2⟩ := wrap_range y height dy hy0 hy
  obtain ⟨hx1, hx2⟩ := wrap_range x width dx hx0 hx
  obtain ⟨a, row, c, -, -, -, -, hc⟩ := load_of_range ok _ _ hy1 hy2 hx1 hx2
  unfold neighborStep liveAt
  rw [if_neg hne]
  simp only [hc]
  cases c with
  | mk al => cases al <;> simp

theorem countNeighbors_eq {h : Heap} {grid : Grid} {height width : Nat}
    (ok : GridOK h grid height width) {x y : Int}
    (hx0 : 0 ≤ x) (hx : x < width) (hy0 : 0 ≤ y) (hy : y < height) :
    countNeighbors h grid x y = some (liveNeighbors h grid height width x y : Int) := by
  have hh : 0 < height := by omega
  unfold countNeighbors
  rw [rowLen_zero ok hh, ok.1]
  have e := fun dy c dx d => neighborStep_eq ok hx0 hx hy0 hy dy c dx d
  have e0 : ∀ c, neighborStep h grid height width x y 0 c 0 = some c := by
    intro c; simp [neighborStep]
  have e1 := fun c => e (-1) c (-1) (by decide)
  have e2 := fun c => e (-1) c 0 (by decide)
  have e3 := fun c => e (-1) c 1 (by decide)
  have e4 := fun c => e 0 c (-1) (by decide)
  have e5 := fun c => e 0 c 1 (by decide)
  have e6 := fun c => e 1 c (-1) (by decide)
  have e7 := fun c => e 1 c 0 (by decide)
  have e8 := fun c => e 1 c 1 (by decide)
  simp only [Option.some_bind, Option.bind_eq_bind, List.foldlM_cons, List.foldlM_nil,
    Option.pure_def, e0, e1, e2, e3, e4, e5, e6, e7, e8]
  simp only [liveNeighbors, offsets, List.countP_cons, List.countP_nil]
  congr 1
  split_ifs <;> simp

theorem forRange_succ {σ : Type} (n : Nat) (body : σ → Nat → Option σ) (s : σ) :
    forRange (n + 1) body s = (forRange n body s).bind (fun s1 => body s1 n) := by
  unfold forRange
  rw [List.range_succ, List.foldlM_append]
  simp

/-- Loop rule: an invariant that every iteration re-establishes holds at exit,
and the loop does not fail. -/
theorem forRange_inv {σ : Type} (P : Nat → σ → Prop) (body : σ → Nat → Option σ) (n : Nat) (s0 : σ)
    (h0 : P 0 s0)
    (hstep : ∀ k s, k < n → P k s → ∃ s1, body s k = some s1 ∧ P (k + 1) s1) :
    ∃ s1, forRange n body s0 = some s1 ∧ P n s1 := by
  induction n with
  | zero => exact ⟨s0, by simp [forRange], h0⟩
  | succ n ih =>
    obtain ⟨s1, hs1, hP⟩ := ih (fun k s hk hp => hstep k s (Nat.lt_succ_of_lt hk) hp)
    obtain ⟨s2, hs2, hP2⟩ := hstep n s1 (Nat.lt_succ_self n) hP
    exact ⟨s2, by rw [forRange_succ, hs1]; simpa using hs2, hP2⟩

theorem GridOK.of_agree {h h1 : Heap} {grid : Grid} {height width : Nat}
    (ok : GridOK h grid height width) (ag : AgreeOn grid h h1) : GridOK h1 grid height width :=
  ⟨ok.1, fun a ha => by rw [ag a ha]; exact ok.2 a ha⟩

theorem liveAt_agree {grid : Grid} {h h1 : Heap} (ag : AgreeOn grid h h1) (y x : Int) :
    liveAt h1 grid y x = liveAt h grid y x := by
  unfold liveAt; rw [load_agree ag]

theorem liveNeighbors_agree {grid : Grid} {h h1 : Heap} (ag : AgreeOn grid h h1)
    (height width : Nat) (x y : Int) :
    liveNeighbors h1 grid height width x y = liveNeighbors h grid height width x y := by
  unfold liveNeighbors; simp only [liveAt_agree ag]

theorem storeAlive_eq {h : Heap} {grid : Grid} {y x : Nat} {a : Nat} {row : List Cell}
    (ha : grid[y]? = some a) (hrow : h[a]? = some row) (hx : x < row.length) (v : Bool) :
    storeAlive h grid y x v = some (h.set a (row.set x ⟨v⟩)) := by
  unfold storeAlive
  simp [index_natCast, ha, hrow, List.getElem?_eq_getElem hx]

/-- The value `nextGeneration` writes for a cell. -/
theorem cellStep_eq {h : Heap} {grid backup : Grid} {height width : Nat}
    (ok : GridOK h grid height width) {y x : Nat} (hy : y < height) (hx : x < width)
    {a : Nat} {row : List Cell}
    (ha : backup[y]? = some a) (hrow : h[a]? = some row) (hlen : row.length = width) :
    cellStep grid backup y h x = some (h.set a (row.set x
      ⟨rule (liveAt h grid y x) (liveNeighbors h grid height width x y)⟩)) := by
  have hc := countNeighbors_eq ok (x := x) (y := y) (by omega) (by exact_mod_cast hx)
    (by omega) (by exact_mod_cast hy)
  obtain ⟨a1, row1, c, -, -, -, -, hl⟩ := load_of_range ok (y : Int) (x : Int) (by omega)
    (by exact_mod_cast hy) (by omega) (by exact_mod_cast hx)
  have hx1 : x < row.length := by omega
  unfold cellStep
  simp only [hc, hl, Option.some_bind, Option.bind_eq_bind]
  have hlive : liveAt h grid y x = c.Alive := by simp [liveAt, hl]
  rw [hlive]
  unfold rule
  split_ifs <;> exact storeAlive_eq ha hrow hx1 _

/-- Inner loop of `nextGeneration` on row `y`: only the backing array of
`backupGrid[y]` changes, and all its cells get their next value. -/
theorem rowLoop_spec {h h0 : Heap} {grid backup : Grid} {height width : Nat}
    (ok : GridOK h grid height width) (ag : AgreeOn grid h h0)
    {y : Nat} (hy : y < height) {a : Nat} {row0 : List Cell}
    (ha : backup[y]? = some a) (hag : a ∉ grid)
    (hrow : h0[a]? = some row0) (hlen : row0.length = width) :
    ∃ h1 row, forRange width (cellStep grid backup y) h0 = some h1 ∧
      (∀ a1, a1 ≠ a → h1[a1]? = h0[a1]?) ∧ h1[a]? = some row ∧ row.length = width ∧
      ∀ x, x < width → row[x]? = some (nextCell h grid height width y x) := by
  have key := forRange_inv
    (fun k h1 => (∀ a1, a1 ≠ a → h1[a1]? = h0[a1]?) ∧ ∃ row, h1[a]? = some row ∧
      row.length = width ∧ ∀ x, x < k → row[x]? = some (nextCell h grid height width y x))
    (cellStep grid backup y) width h0
    ⟨fun _ _ => rfl, row0, hrow, hlen, fun x hx => absurd hx (Nat.not_lt_zero x)⟩
    (by
      rintro k h1 hk ⟨hfr, row, hr, hrl, hcells⟩
      have ag1 : AgreeOn grid h h1 := fun a1 ha1 => by
        rw [hfr a1 (fun e => hag (e ▸ ha1))]; exact ag a1 ha1
      have ok1 := ok.of_agree ag1
      refine ⟨_, cellStep_eq ok1 hy hk ha hr hrl, ?_, ?_⟩
      · intro a1 hne
        rw [List.getElem?_set_ne (Ne.symm hne)]
        exact hfr a1 hne
      · have hal : a < h1.length := by
          rcases List.getElem?_eq_some.1 hr with ⟨hlt, -⟩
          exact hlt
        refine ⟨_, List.getElem?_set_self hal, by simp [hrl], ?_⟩
        intro x hx
        by_cases hxk : x = k
        · subst hxk
          rw [List.getElem?_set_self (by omega)]
          simp [nextCell, liveAt_agree ag1, liveNeighbors_agree ag1]
        · rw [List.getElem?_set_ne (Ne.symm hxk)]
          exact hcells x (by omega))
  obtain ⟨h1, hrun, hfr, row, hr, hrl, hcells⟩ := key
  exact ⟨h1, row, hrun, hfr, hr, hrl, hcells⟩

/-- Both loops of `nextGeneration`: they do not fail, touch only the backing
arrays of `backup`, and leave in `backup` the next generation of `grid`. -/
theorem gridLoop_spec {h : Heap} {grid backup : Grid} {height width : Nat}
    (ok : GridOK h grid height width) (okb : GridOK h backup height width)
    (hnd : backup.Nodup) (hdisj : ∀ a ∈ grid, a ∉ backup) :
    ∃ h1, forRange height (fun h1 y => forRange width (cellStep grid backup y) h1) h = some h1 ∧
      (∀ a1 : Nat, a1 ∉ backup → h1[a1]? = h[a1]?) ∧
      (∀ a1 : Nat, (h1[a1]?).map List.length = (h[a1]?).map List.length) ∧
      ∀ y, y < height → ∀ a, backup[y]? = some a → ∃ row, h1[a]? = some row ∧
        ∀ x, x < width → row[x]? = some (nextCell h grid height width y x) := by
  apply forRange_inv
    (fun j h1 => (∀ a1 : Nat, a1 ∉ backup → h1[a1]? = h[a1]?) ∧
      (∀ a1 : Nat, (h1[a1]?).map List.length = (h[a1]?).map List.length) ∧
      ∀ y, y < j → ∀ a, backup[y]? = some a → ∃ row, h1[a]? = some row ∧
        ∀ x, x < width → row[x]? = some (nextCell h grid height width y x))
  · exact ⟨fun _ _ => rfl, fun _ => rfl, fun y hy => absurd hy (Nat.not_lt_zero y)⟩
  · rintro j h1 hj ⟨hfr, hlen, hdone⟩
    have hjb : j < backup.length := by rw [okb.1]; exact hj
    have ha : backup[j]? = some backup[j] := List.getElem?_eq_getElem hjb
    have hab : backup[j] ∈ backup := List.getElem_mem hjb
    have hag : backup[j] ∉ grid := fun hin => hdisj _ hin hab
    have ag : AgreeOn grid h h1 := fun a1 ha1 => hfr a1 (hdisj a1 ha1)
    have okb1 : GridOK h1 backup height width :=
      ⟨okb.1, fun a1 ha1 => by rw [hlen a1]; exact okb.2 a1 ha1⟩
    obtain ⟨row0, hrow0, hlen0⟩ := okb1.row hab
    obtain ⟨h2, row, hrun, hfr2, hr2, hrl2, hcells⟩ := rowLoop_spec ok ag hj ha hag hrow0 hlen0
    refine ⟨h2, hrun, ?_, ?_, ?_⟩
    · intro a1 ha1
      rw [hfr2 a1 (fun e => ha1 (e ▸ hab))]
      exact hfr a1 ha1
    · intro a1
      by_cases e : a1 = backup[j]
      · rw [e, hr2, ← hlen, hrow0]; simp [hrl2, hlen0]
      · rw [hfr2 a1 e]; exact hlen a1
    · intro y hy a hya
      by_cases e : y = j
      · subst e
        rw [ha] at hya
        cases hya
        exact ⟨row, hr2, hcells⟩
      · have hne : a ≠ backup[j] := by
          intro e1
          have hyb : y < backup.length := by omega
          exact e (List.getElem?_inj hyb hnd (by rw [hya, ha, e1]))
        rw [hfr2 a hne]
        exact hdone y (by omega) a hya

/-- Specification of `nextGeneration`: on a grid and a scratch buffer of the
same shape whose rows are distinct arrays not shared with the grid, the call
returns the scratch buffer holding the next generation of `grid`, swaps the
two globals, and leaves every other array of the heap as it was. -/
theorem nextGeneration_spec (w : World) (grid : Grid) (height width : Nat)
    (ok : GridOK w.heap grid height width) (okb : GridOK w.heap w.backupGrid height width)
    (hh : 0 < height)
    (hnd : w.backupGrid.Nodup) (hdisj : ∀ a ∈ grid, a ∉ w.backupGrid) :
    ∃ h1, nextGeneration w grid = some
        (⟨h1, { w.gameState with Grid := w.backupGrid }, w.gameState.Grid⟩, w.backupGrid) ∧
      (∀ a1 : Nat, a1 ∉ w.backupGrid → h1[a1]? = w.heap[a1]?) ∧
      (∀ a1 : Nat, (h1[a1]?).map List.length = (w.heap[a1]?).map List.length) ∧
      ∀ y x : Nat, y < height → x < width →
        load h1 w.backupGrid y x = some (nextCell w.heap grid height width y x) := by
  obtain ⟨h1, hrun, hfr, hlen, hcells⟩ := gridLoop_spec ok okb hnd hdisj
  refine ⟨h1, ?_, hfr, hlen, ?_⟩
  · unfold nextGeneration
    rw [rowLen_zero ok hh, ok.1]
    simp [hrun]
  · intro y x hy hx
    have hyb : y < w.backupGrid.length := by rw [okb.1]; exact hy
    obtain ⟨row, hr, hc⟩ := hcells y hy _ (List.getElem?_eq_getElem hyb)
    simp [load, index_natCast, List.getElem?_eq_getElem hyb, hr, hc x hx]

/-! ## Neighbour counting on the torus -/

theorem wrap_eq_emod (n dim d : Int) (h0 : 0 ≤ n) (h1 : n < dim) (hd : -1 ≤ d) (hd1 : d ≤ 1) :
    wrap (n + d) dim = (n + d) % dim := by
  unfold wrap
  split_ifs with h2 h3
  · have e : n + d = -1 := by omega
    rw [e, ← Int.add_emod_self, Int.emod_eq_of_lt (by omega) (by omega)]
    omega
  · have e : n + d = dim := by omega
    rw [e, Int.emod_self]
  · rw [Int.emod_eq_of_lt (by omega) (by omega)]

theorem liveAt_iff (h : Heap) (grid : Grid) (y x : Int) :
    liveAt h grid y x = true ↔ load h grid y x = some ⟨true⟩ := by
  unfold liveAt
  cases load h grid y x with
  | none => simp
  | some c => cases c with
    | mk al => cases al <;> simp

theorem offsets_bounds : ∀ d ∈ offsets, (-1 ≤ d.1 ∧ d.1 ≤ 1) ∧ (-1 ≤ d.2 ∧ d.2 ≤ 1) := by
  decide

theorem neighborOffsets_eq : neighborOffsets = offsets.toFinset := by
  decide

theorem offsets_nodup : offsets.Nodup := by
  decide

theorem card_filter_offsets (p : Int × Int → Prop) [DecidablePred p] :
    (neighborOffsets.filter p).card = offsets.countP (fun d => decide (p d)) := by
  have e : Finset.filter p offsets.toFinset
      = (offsets.filter (fun d => decide (p d))).toFinset := by
    ext d; simp
  rw [neighborOffsets_eq, e, List.toFinset_card_of_nodup (offsets_nodup.filter _),
    List.countP_eq_length_filter]

theorem liveNeighbors_eq_card {h : Heap} {grid : Grid} {height width : Nat} {x y : Int}
    (hx0 : 0 ≤ x) (hx : x < width) (hy0 : 0 ≤ y) (hy : y < height) :
    liveNeighbors h grid height width x y = (neighborOffsets.filter (fun d =>
      load h grid ((y + d.2) % height) ((x + d.1) % width) = some ⟨true⟩)).card := by
  rw [card_filter_offsets]
  unfold liveNeighbors
  apply List.countP_congr
  intro d hd
  obtain ⟨⟨a1, a2⟩, b1, b2⟩ := offsets_bounds d hd
  rw [wrap_eq_emod y height d.2 hy0 hy b1 b2, wrap_eq_emod x width d.1 hx0 hx a1 a2]
  simp [liveAt_iff]

theorem liveNeighbors_le (h : Heap) (grid : Grid) (height width : Nat) (x y : Int) :
    liveNeighbors h grid height width x y ≤ 8 := by
  unfold liveNeighbors
  exact List.countP_le_length _

theorem rule_iff (alive : Bool) (n : Int) :
    rule alive n = true ↔ (alive = true ∧ (n = 2 ∨ n = 3)) ∨ (alive = false ∧ n = 3) := by
  unfold rule
  cases alive <;> simp

theorem liveAt_of_load {h : Heap} {grid : Grid} {y x : Int} {c : Cell}
    (hl : load h grid y x = some c) : liveAt h grid y x = c.Alive := by
  simp [liveAt, hl]

/-- The shape of the scratch buffer after the loops of `nextGeneration`. -/
theorem GridOK.of_lengths {h h1 : Heap} {grid : Grid} {height width : Nat}
    (ok : GridOK h grid height width)
    (hlen : ∀ a1 : Nat, (h1[a1]?).map List.length = (h[a1]?).map List.length) :
    GridOK h1 grid height width :=
  ⟨ok.1, fun a ha => by rw [hlen a]; exact ok.2 a ha⟩

/-! ## One generation on a state that satisfies the invariant -/

theorem liveNeighbors_eq_countOn {h : Heap} {grid : Grid} {height width : Nat}
    (f : Int → Int → Bool)
    (hf : ∀ x y : Int, 0 ≤ x → x < width → 0 ≤ y → y < height → liveAt h grid y x = f y x)
    {x y : Int} (hx0 : 0 ≤ x) (hx : x < width) (hy0 : 0 ≤ y) (hy : y < height) :
    liveNeighbors h grid height width x y = countOn f height width x y := by
  unfold liveNeighbors countOn
  apply List.countP_congr
  intro d _
  obtain ⟨a1, a2⟩ := wrap_range x width d.1 hx0 hx
  obtain ⟨b1, b2⟩ := wrap_range y height d.2 hy0 hy
  rw [hf _ _ a1 a2 b1 b2]

theorem Invariant.dims {w : World} (hinv : Invariant w) :
    ((w.gameState.Height.toNat : Nat) : Int) = w.gameState.Height ∧
    ((w.gameState.Width.toNat : Nat) : Int) = w.gameState.Width ∧
    0 < w.gameState.Height.toNat ∧ 0 < w.gameState.Width.toNat := by
  obtain ⟨h1, h2, -⟩ := hinv
  refine ⟨by omega, by omega, by omega, by omega⟩

/-- One call of `nextGeneration` on the current grid of a state satisfying the
invariant: it succeeds, re-establishes the invariant with the two buffers
exchanged, leaves all arrays outside the scratch buffer untouched, and the
returned grid holds the next generation. -/
theorem nextGeneration_of_invariant (w : World) (hinv : Invariant w) :
    ∃ h1, nextGeneration w w.gameState.Grid = some (swapped w h1, w.backupGrid) ∧
      Invariant (swapped w h1) ∧
      (∀ a1 : Nat, a1 ∉ w.backupGrid → h1[a1]? = w.heap[a1]?) ∧
      ∀ y x : Nat, y < w.gameState.Height.toNat → x < w.gameState.Width.toNat →
        load h1 w.backupGrid y x = some (nextCell w.heap w.gameState.Grid
          w.gameState.Height.toNat w.gameState.Width.toNat y x) := by
  have hd := hinv.dims
  obtain ⟨hH, hW, ok, okb, hnd⟩ := hinv
  have hnd2 := List.nodup_append.1 hnd
  obtain ⟨h1, hrun, hfr, hlen, hcells⟩ := nextGeneration_spec w w.gameState.Grid _ _ ok okb
    hd.2.2.1 hnd2.2.1 (fun a ha hb => hnd2.2.2 ha hb)
  refine ⟨h1, hrun, ⟨hH, hW, okb.of_lengths hlen, ok.of_lengths hlen, ?_⟩, hfr, hcells⟩
  exact List.nodup_append_comm.1 hnd

theorem liveAt_board {h : Heap} {grid : Grid} {height width : Nat} (f : Int → Int → Bool)
    (hf : ∀ x y : Nat, x < width → y < height → load h grid y x = some ⟨f y x⟩)
    (x y : Int) (hx0 : 0 ≤ x) (hx : x < width) (hy0 : 0 ≤ y) (hy : y < height) :
    liveAt h grid y x = f y x := by
  have e := hf x.toNat y.toNat (by omega) (by omega)
  rw [Int.toNat_of_nonneg hx0, Int.toNat_of_nonneg hy0] at e
  rw [liveAt_of_load e]

/-- When the cells of `grid` are given by the board `f`, the returned grid is
given by the rule applied to `f`. -/
theorem nextGeneration_board (w : World) (grid : Grid) (height width : Nat)
    (ok : GridOK w.heap grid height width) (okb : GridOK w.heap w.backupGrid height width)
    (hh : 0 < height)
    (hnd : w.backupGrid.Nodup) (hdisj : ∀ a ∈ grid, a ∉ w.backupGrid)
    (f : Int → Int → Bool)
    (hf : ∀ x y : Nat, x < width → y < height → load w.heap grid y x = some ⟨f y x⟩) :
    ∃ h1, nextGeneration w grid = some (swapped w h1, w.backupGrid) ∧
      (∀ a1 : Nat, a1 ∉ w.backupGrid → h1[a1]? = w.heap[a1]?) ∧
      (∀ a1 : Nat, (h1[a1]?).map List.length = (w.heap[a1]?).map List.length) ∧
      ∀ x y : Nat, x < width → y < height →
        load h1 w.backupGrid y x = some ⟨rule (f y x) (countOn f height width x y)⟩ := by
  obtain ⟨h1, hrun, hfr, hlen, hcells⟩ := nextGeneration_spec w grid height width ok okb hh hnd hdisj
  refine ⟨h1, hrun, hfr, hlen, ?_⟩
  intro x y hx hy
  have hxi : (x : Int) < width := by exact_mod_cast hx
  have hyi : (y : Int) < height := by exact_mod_cast hy
  rw [hcells y x hy hx, nextCell,
    liveNeighbors_eq_countOn f (liveAt_board f hf) (Int.natCast_nonneg x) hxi
      (Int.natCast_nonneg y) hyi,
    liveAt_board f hf x y (Int.natCast_nonneg x) hxi (Int.natCast_nonneg y) hyi]

/-- The board form of `nextGeneration_of_invariant`. -/
theorem nextGeneration_board_of_invariant (w : World) (hinv : Invariant w)
    (f : Int → Int → Bool)
    (hf : ∀ x y : Nat, (x : Int) < w.gameState.Width → (y : Int) < w.gameState.Height →
      load w.heap w.gameState.Grid y x = some ⟨f y x⟩) :
    ∃ h1, nextGeneration w w.gameState.Grid = some (swapped w h1, w.backupGrid) ∧
      Invariant (swapped w h1) ∧
      (∀ a1 : Nat, a1 ∉ w.backupGrid → h1[a1]? = w.heap[a1]?) ∧
      ∀ x y : Nat, (x : Int) < w.gameState.Width → (y : Int) < w.gameState.Height →
        load h1 w.backupGrid y x
          = some ⟨rule (f y x) (countOn f w.gameState.Height w.gameState.Width x y)⟩ := by
  have hd := hinv.dims
  obtain ⟨hH, hW, ok, okb, hnd⟩ := hinv
  have hnd2 := List.nodup_append.1 hnd
  obtain ⟨h1, hrun, hfr, hlen, hcells⟩ := nextGeneration_board w w.gameState.Grid _ _ ok okb
    hd.2.2.1 hnd2.2.1 (fun a ha hb => hnd2.2.2 ha hb) f
    (fun x y hx hy => hf x y (by omega) (by omega))
  refine ⟨h1, hrun, ⟨hH, hW, okb.of_lengths hlen, ok.of_lengths hlen,
    List.nodup_append_comm.1 hnd⟩, hfr, ?_⟩
  intro x y hx hy
  have := hcells x y (by omega) (by omega)
  rw [hd.1, hd.2.1] at this
  exact this

theorem rule_blinker3 : ∀ x y : Fin 3,
    rule (decide (((x : Nat) : Int) = 1)) (countOn (fun _ x => decide (x = 1)) 3 3 (x : Nat) (y : Nat)) = true := by
  decide

theorem rule_full3 : ∀ x y : Fin 3,
    rule true (countOn (fun _ _ => true) 3 3 (x : Nat) (y : Nat)) = false := by
  decide

theorem shift_wrap (n dim d s : Int) (h0 : 0 ≤ n) (h1 : n < dim) (hd : -1 ≤ d) (hd1 : d ≤ 1) :
    wrap ((n + s) % dim + d) dim = (wrap (n + d) dim + s) % dim ∧
    0 ≤ wrap (n + d) dim ∧ wrap (n + d) dim < dim := by
  have hpos : 0 < dim := by omega
  have r1 := Int.emod_nonneg (n + s) (ne_of_gt hpos)
  have r2 := Int.emod_lt_of_pos (n + s) hpos
  refine ⟨?_, wrap_range n dim d h0 h1⟩
  rw [wrap_eq_emod _ dim d r1 r2 hd hd1, wrap_eq_emod n dim d h0 h1 hd hd1,
    Int.emod_add_emod, Int.emod_add_emod]
  congr 1
  ring

/-! ## The 2x2 block -/

theorem count8_block (a b : Int → Bool)
    (ha : a 0 = true → a (-1) ≠ a 1) (ha1 : a 0 = false → ¬ (a (-1) = true ∧ a 1 = true))
    (hb : b 0 = true → b (-1) ≠ b 1) (hb1 : b 0 = false → ¬ (b (-1) = true ∧ b 1 = true)) :
    ((a 0 && b 0) = true → count8 a b = 3) ∧ ((a 0 && b 0) = false → count8 a b ≤ 2) := by
  unfold count8 offsets
  simp only [List.countP_cons, List.countP_nil]
  generalize a (-1) = a1 at *
  generalize a 0 = a2 at *
  generalize a 1 = a3 at *
  generalize b (-1) = b1 at *
  generalize b 0 = b2 at *
  generalize b 1 = b3 at *
  revert a1 a2 a3 b1 b2 b3
  decide

theorem succ_emod (n dim : Int) (hd : 0 < dim) :
    0 ≤ n % dim ∧ n % dim < dim ∧
    ((n + 1) % dim = n % dim + 1 ∨ (n % dim = dim - 1 ∧ (n + 1) % dim = 0)) := by
  have r1 := Int.emod_nonneg n (ne_of_gt hd)
  have r2 := Int.emod_lt_of_pos n hd
  refine ⟨r1, r2, ?_⟩
  rw [← Int.emod_add_emod]
  by_cases e : n % dim + 1 = dim
  · right
    rw [e, Int.emod_self]
    exact ⟨by omega, rfl⟩
  · left
    exact Int.emod_eq_of_lt (by omega) (by omega)

/-- Along one axis of a torus of size at least 4, a span of two adjacent
positions meets the three wrapped positions around `n` in two places when `n`
is in the span and in at most one place otherwise. -/
theorem span_wrap (n dim s0 s1 : Int) (h4 : 4 ≤ dim) (h0 : 0 ≤ n) (h1 : n < dim)
    (hs0 : 0 ≤ s0) (hs1 : s0 < dim) (hs2 : s1 < dim)
    (hs : s1 = s0 + 1 ∨ (s0 = dim - 1 ∧ s1 = 0)) :
    spanAt n dim s0 s1 0 = decide (n = s0 ∨ n = s1) ∧
    (spanAt n dim s0 s1 0 = true → spanAt n dim s0 s1 (-1) ≠ spanAt n dim s0 s1 1) ∧
    (spanAt n dim s0 s1 0 = false →
      ¬ (spanAt n dim s0 s1 (-1) = true ∧ spanAt n dim s0 s1 1 = true)) := by
  have e0 : wrap (n + 0) dim = n := by unfold wrap; split_ifs <;> omega
  have em : (1 ≤ n ∧ wrap (n + -1) dim = n - 1) ∨ (n = 0 ∧ wrap (n + -1) dim = dim - 1) := by
    unfold wrap; split_ifs <;> omega
  have ep : (n + 1 < dim ∧ wrap (n + 1) dim = n + 1) ∨ (n = dim - 1 ∧ wrap (n + 1) dim = 0) := by
    unfold wrap; split_ifs <;> omega
  simp only [spanAt, e0]
  generalize wrap (n + -1) dim = m at *
  generalize wrap (n + 1) dim = p at *
  refine ⟨trivial, ?_, ?_⟩
  · simp only [decide_eq_true_eq, ne_eq, decide_eq_decide]
    omega
  · simp only [decide_eq_false_iff_not, decide_eq_true_eq]
    omega

/-! ## Dead grids and rendering never fail -/

theorem countOn_block (x0 y0 height width x y : Int) (hw : 4 ≤ width) (hh : 4 ≤ height)
    (hx0 : 0 ≤ x) (hx : x < width) (hy0 : 0 ≤ y) (hy : y < height) :
    (inBlock x0 y0 height width y x = true →
      countOn (inBlock x0 y0 height width) height width x y = 3) ∧
    (inBlock x0 y0 height width y x = false →
      countOn (inBlock x0 y0 height width) height width x y ≤ 2) := by
  obtain ⟨a1, a2, a3⟩ := succ_emod x0 width (by omega)
  obtain ⟨b1, b2, b3⟩ := succ_emod y0 height (by omega)
  have a4 : (x0 + 1) % width < width := Int.emod_lt_of_pos _ (by omega)
  have b4 : (y0 + 1) % height < height := Int.emod_lt_of_pos _ (by omega)
  obtain ⟨sa0, sa1, sa2⟩ := span_wrap x width (x0 % width) ((x0 + 1) % width) hw hx0 hx a1 a2 a4 a3
  obtain ⟨sb0, sb1, sb2⟩ := span_wrap y height (y0 % height) ((y0 + 1) % height) hh hy0 hy
    b1 b2 b4 b3
  have key := count8_block (spanAt x width (x0 % width) ((x0 + 1) % width))
    (spanAt y height (y0 % height) ((y0 + 1) % height)) sa1 sa2 sb1 sb2
  have e : countOn (inBlock x0 y0 height width) height width x y = count8
      (spanAt x width (x0 % width) ((x0 + 1) % width))
      (spanAt y height (y0 % height) ((y0 + 1) % height)) := by
    simp only [countOn, count8, inBlock, Bool.decide_and, spanAt]
  have e2 : inBlock x0 y0 height width y x =
      (decide (x = x0 % width ∨ x = (x0 + 1) % width)
        && decide (y = y0 % height ∨ y = (y0 + 1) % height)) := by
    simp only [inBlock, Bool.decide_and]
  rw [e, e2, ← sa0, ← sb0]
  exact key

theorem countOn_dead (height width x y : Int) :
    countOn (fun _ _ => false) height width x y = 0 := by
  simp [countOn]

/-! ## Writing one cell -/

/-- On a well-formed grid `renderGrid` writes its bytes: no index is out of range. -/
theorem renderGrid_total {h : Heap} {grid : Grid} {height width : Nat}
    (ok : GridOK h grid height width) (hh : 0 < height) :
    ∃ body, renderGrid h grid = some body := by
  unfold renderGrid
  rw [rowLen_zero ok hh, ok.1]
  obtain ⟨body, hb, -⟩ := forRange_inv (fun _ _ => True)
    (fun builder y => forRange width (renderStep h grid y) builder) height "" trivial
    (by
      intro y s hy _
      obtain ⟨s1, hs1, -⟩ := forRange_inv (fun _ _ => True) (renderStep h grid y) width s trivial
        (by
          intro x s2 hx _
          obtain ⟨-, -, c, -, -, -, -, hl⟩ := load_of_range ok (y : Int) (x : Int)
            (Int.natCast_nonneg y) (by exact_mod_cast hy) (Int.natCast_nonneg x)
            (by exact_mod_cast hx)
          have e : ∃ s1, renderStep h grid y s2 x = some s1 := by
            unfold renderStep
            rw [hl]
            exact ⟨_, rfl⟩
          exact ⟨e.choose, e.choose_spec, trivial⟩)
      exact ⟨s1, hs1, trivial⟩)
  exact ⟨body, by simpa using hb⟩

theorem index_mem {α : Type} {l : List α} {i : Int} {a : α} (hi : index l i = some a) :
    0 ≤ i ∧ l[i.toNat]? = some a := by
  unfold index at hi
  split at hi
  · cases hi
  · exact ⟨by omega, hi⟩

/-- Reading back the cell that was just written. -/
theorem load_set_same {h : Heap} {grid : Grid} {y x : Int} {a : Nat} {row : List Cell}
    (hy : index grid y = some a) (hrow : h[a]? = some row) (hx0 : 0 ≤ x) (hx : x < row.length)
    (c : Cell) : load (h.set a (row.set x.toNat c)) grid y x = some c := by
  have hal : a < h.length := (List.getElem?_eq_some.1 hrow).1
  unfold load
  simp only [hy, Option.some_bind, Option.bind_eq_bind, List.getElem?_set_self hal]
  unfold index
  rw [if_neg (by omega), List.getElem?_set_self (by omega)]

/-- Every other access sees what it saw before the write. -/
theorem load_set_other {h : Heap} {grid : Grid} {x : Int} {a : Nat} {row : List Cell}
    (hrow : h[a]? = some row) (hx0 : 0 ≤ x) (c : Cell) (y1 x1 : Int)
    (hne : index grid y1 = some a → x1 ≠ x) :
    load (h.set a (row.set x.toNat c)) grid y1 x1 = load h grid y1 x1 := by
  have hal : a < h.length := (List.getElem?_eq_some.1 hrow).1
  unfold load
  cases hi : index grid y1 with
  | none => rfl
  | some a1 =>
    simp only [Option.some_bind, Option.bind_eq_bind]
    by_cases e : a1 = a
    · subst e
      have hx1 := hne hi
      rw [List.getElem?_set_self hal, hrow]
      simp only [Option.some_bind]
      unfold index
      split
      · rfl
      · rw [List.getElem?_set_ne (by omega)]
    · rw [List.getElem?_set_ne (Ne.symm e)]

/-- Why the scratch buffer must not share rows with the grid: when `backupGrid`
is the grid itself, later cells are computed from cells already overwritten.
On `blinker3` the dead cell `(2, 0)` has three live neighbours before the call,
yet the returned grid has it dead. -/
theorem nextGeneration_aliased :
    countNeighbors blinker3.heap [0, 2, 4] 2 0 = some 3 ∧
    load blinker3.heap [0, 2, 4] 0 2 = some ⟨false⟩ ∧
    ∃ w1 r, nextGeneration { blinker3 with backupGrid := [0, 2, 4] } [0, 2, 4] = some (w1, r) ∧
      load w1.heap r 0 2 = some ⟨false⟩ := by
  refine ⟨by decide, by decide, _, _, rfl, ?_⟩
  decide

/-- The success path of `toggleCellHandler`: for parsed coordinates within the
grid the handler answers 200. -/
theorem toggleCellHandler_valid (w : World) (hinv : Invariant w) (x y : Int)
    (hx0 : 0 ≤ x) (hx : x < w.gameState.Width) (hy0 : 0 ≤ y) (hy : y < w.gameState.Height)
    (r : ToggleRequest) (hform : r.formError = false) (hrx : r.x = some x) (hry : r.y = some y) :
    ∃ h1 body, toggleCellHandler w r
        = some (⟨h1, w.gameState, w.backupGrid⟩, ⟨200, "text/html", body⟩) ∧
      ∀ a1 : Nat, (h1[a1]?).map List.length = (w.heap[a1]?).map List.length := by
  have hd := hinv.dims
  obtain ⟨-, -, ok, -, -⟩ := hinv
  obtain ⟨a, row, c, ha, hrow, hlen, hc, hl⟩ := load_of_range ok y x hy0 (by omega) hx0 (by omega)
  have hya : index w.gameState.Grid y = some a := by
    unfold index; rw [if_neg (by omega)]; exact ha
  have hxc : index row x = some c := by
    unfold index; rw [if_neg (by omega)]; exact hc
  have hst : storeAlive w.heap w.gameState.Grid y x (!c.Alive)
      = some (w.heap.set a (row.set x.toNat ⟨!c.Alive⟩)) := by
    simp [storeAlive, hya, hrow, hxc]
  have hnew := load_set_same (h := w.heap) hya hrow hx0 (by omega : x < row.length) ⟨!c.Alive⟩
  refine ⟨w.heap.set a (row.set x.toNat ⟨!c.Alive⟩), renderCell ⟨!c.Alive⟩ x y, ?_, ?_⟩
  · unfold toggleCellHandler
    rw [hform, hrx, hry]
    have hrange : ¬ (x < 0 ∨ x ≥ w.gameState.Width ∨ y < 0 ∨ y ≥ w.gameState.Height) := by
      omega
    simp only [Bool.false_eq_true, if_false, if_neg hrange, hl, hst, hnew, Option.some_bind,
      Option.bind_eq_bind, Option.pure_def]
  · intro a1
    by_cases e : a1 = a
    · have hal : a < w.heap.length := (List.getElem?_eq_some.1 hrow).1
      rw [e, List.getElem?_set_self hal, hrow]
      simp
    · rw [List.getElem?_set_ne (Ne.symm e)]

/-! ## Loops that fill the grid -/

/-- A doubly nested loop that writes the cell `(x, y)` of `grid` with `val y x`,
whatever else its state `σ` carries: it does not fail, touches only the arrays
of `grid`, keeps all lengths and leaves `val` in every cell.  `J y x s` is what
the state satisfies when the cell `(x, y)` is about to be written. -/
theorem fillLoop_spec {σ : Type} (heapOf : σ → Heap) (J : Nat → Nat → σ → Prop)
    (val : Nat → Nat → Bool) (body : Nat → σ → Nat → Option σ)
    (grid : Grid) (height width : Nat) (s0 : σ)
    (ok : GridOK (heapOf s0) grid height width) (hnd : grid.Nodup)
    (hJ0 : J 0 0 s0) (hJrow : ∀ y s, J y width s → J (y + 1) 0 s)
    (hbody : ∀ y x s a row, y < height → x < width → J y x s → grid[y]? = some a →
      (heapOf s)[a]? = some row → x < row.length →
      ∃ s1, body y s x = some s1 ∧
        heapOf s1 = (heapOf s).set a (row.set x ⟨val y x⟩) ∧ J y (x + 1) s1) :
    ∃ s1, forRange height (fun s y => forRange width (body y) s) s0 = some s1 ∧
      J height 0 s1 ∧
      (∀ a1 : Nat, a1 ∉ grid → (heapOf s1)[a1]? = (heapOf s0)[a1]?) ∧
      (∀ a1 : Nat, ((heapOf s1)[a1]?).map List.length = ((heapOf s0)[a1]?).map List.length) ∧
      ∀ y x : Nat, y < height → x < width → load (heapOf s1) grid y x = some ⟨val y x⟩ := by
  have outer := forRange_inv
    (fun j s => J j 0 s ∧ (∀ a1 : Nat, a1 ∉ grid → (heapOf s)[a1]? = (heapOf s0)[a1]?) ∧
      (∀ a1 : Nat, ((heapOf s)[a1]?).map List.length = ((heapOf s0)[a1]?).map List.length) ∧
      ∀ y, y < j → ∀ a, grid[y]? = some a → ∃ row, (heapOf s)[a]? = some row ∧
        ∀ x, x < width → row[x]? = some ⟨val y x⟩)
    (fun s y => forRange width (body y) s) height s0
    ⟨hJ0, fun _ _ => rfl, fun _ => rfl, fun y hy => absurd hy (Nat.not_lt_zero y)⟩
    (by
      rintro j s hj ⟨hJ, hfr, hlen, hdone⟩
      have hjb : j < grid.length := by rw [ok.1]; exact hj
      have ha : grid[j]? = some grid[j] := List.getElem?_eq_getElem hjb
      have hab : grid[j] ∈ grid := List.getElem_mem hjb
      have oks : GridOK (heapOf s) grid height width := ok.of_lengths hlen
      obtain ⟨row0, hrow0, hlen0⟩ := oks.row hab
      obtain ⟨s2, hrun, hJ2, hfr2, row, hr2, hrl2, hcells⟩ := forRange_inv
        (fun k s1 => J j k s1 ∧ (∀ a1, a1 ≠ grid[j] → (heapOf s1)[a1]? = (heapOf s)[a1]?) ∧
          ∃ row, (heapOf s1)[grid[j]]? = some row ∧ row.length = width ∧
            ∀ x, x < k → row[x]? = some ⟨val j x⟩)
        (body j) width s
        ⟨hJ, fun _ _ => rfl, row0, hrow0, hlen0, fun x hx => absurd hx (Nat.not_lt_zero x)⟩
        (by
          rintro k s1 hk ⟨hJk, hfrk, row, hr, hrl, hcells⟩
          obtain ⟨s3, hb, hh, hJ3⟩ := hbody j k s1 _ row hj hk hJk ha hr (by omega)
          have hal : grid[j] < (heapOf s1).length := (List.getElem?_eq_some.1 hr).1
          refine ⟨s3, hb, hJ3, ?_, ?_⟩
          · intro a1 hne
            rw [hh, List.getElem?_set_ne (Ne.symm hne)]
            exact hfrk a1 hne
          · refine ⟨_, by rw [hh]; exact List.getElem?_set_self hal, by simp [hrl], ?_⟩
            intro x hx
            by_cases hxk : x = k
            · subst hxk
              rw [List.getElem?_set_self (by omega)]
            · rw [List.getElem?_set_ne (Ne.symm hxk)]
              exact hcells x (by omega))
      refine ⟨s2, hrun, hJrow j s2 hJ2, ?_, ?_, ?_⟩
      · intro a1 ha1
        rw [hfr2 a1 (fun e => ha1 (e ▸ hab))]
        exact hfr a1 ha1
      · intro a1
        by_cases e : a1 = grid[j]
        · rw [e, hr2, ← hlen, hrow0]; simp [hrl2, hlen0]
        · rw [hfr2 a1 e]; exact hlen a1
      · intro y hy a hya
        by_cases e : y = j
        · subst e
          rw [ha] at hya
          cases hya
          exact ⟨row, hr2, hcells⟩
        · have hne : a ≠ grid[j] := by
            intro e1
            have hyb : y < grid.length := by omega
            exact e (List.getElem?_inj hyb hnd (by rw [hya, ha, e1]))
          rw [hfr2 a hne]
          exact hdone y (by omega) a hya)
  obtain ⟨s1, hrun, hJ, hfr, hlen, hcells⟩ := outer
  refine ⟨s1, hrun, hJ, hfr, hlen, ?_⟩
  intro y x hy hx
  have hyb : y < grid.length := by rw [ok.1]; exact hy
  obtain ⟨row, hr, hc⟩ := hcells y hy _ (List.getElem?_eq_getElem hyb)
  simp [load, index_natCast, List.getElem?_eq_getElem hyb, hr, hc x hx]

/-- The loops of `clearHandler` on a state satisfying the invariant. -/
theorem clearLoop_spec (w : World) (hinv : Invariant w) :
    ∃ h1, forRange w.gameState.Height.toNat
        (fun h y => forRange w.gameState.Width.toNat
          (fun h x => storeAlive h w.gameState.Grid y x false) h) w.heap = some h1 ∧
      (∀ a1 : Nat, a1 ∉ w.gameState.Grid → h1[a1]? = w.heap[a1]?) ∧
      (∀ a1 : Nat, (h1[a1]?).map List.length = (w.heap[a1]?).map List.length) ∧
      ∀ y x : Nat, y < w.gameState.Height.toNat → x < w.gameState.Width.toNat →
        load h1 w.gameState.Grid y x = some ⟨false⟩ := by
  obtain ⟨-, -, ok, -, hnd⟩ := hinv
  obtain ⟨h1, hrun, -, hfr, hlen, hcells⟩ := fillLoop_spec (fun h : Heap => h)
    (fun _ _ _ => True) (fun _ _ => false)
    (fun y h x => storeAlive h w.gameState.Grid y x false)
    w.gameState.Grid _ _ w.heap ok (List.nodup_append.1 hnd).1 trivial (fun _ _ _ => trivial)
    (by
      intro y x s a row _ _ _ ha hrow hx
      exact ⟨_, storeAlive_eq ha hrow hx false, rfl, trivial⟩)
  exact ⟨h1, hrun, hfr, hlen, hcells⟩

/-- The loops of `randomHandler` on a state satisfying the invariant: the cell
`(x, y)` gets the draw number `y * Width + x`. -/
theorem randomLoop_spec (w : World) (hinv : Invariant w) (draws : Nat → ℚ) :
    ∃ s1, forRange w.gameState.Height.toNat
        (fun s y => forRange w.gameState.Width.toNat (randomStep draws w.gameState.Grid y) s)
        (w.heap, 0) = some s1 ∧
      (∀ a1 : Nat, a1 ∉ w.gameState.Grid → s1.1[a1]? = w.heap[a1]?) ∧
      (∀ a1 : Nat, (s1.1[a1]?).map List.length = (w.heap[a1]?).map List.length) ∧
      ∀ y x : Nat, y < w.gameState.Height.toNat → x < w.gameState.Width.toNat →
        load s1.1 w.gameState.Grid y x
          = some ⟨decide (draws (y * w.gameState.Width.toNat + x) < aliveThreshold)⟩ := by
  obtain ⟨-, -, ok, -, hnd⟩ := hinv
  obtain ⟨s1, hrun, -, hfr, hlen, hcells⟩ := fillLoop_spec (fun s : Heap × Nat => s.1)
    (fun y x s => s.2 = y * w.gameState.Width.toNat + x)
    (fun y x => decide (draws (y * w.gameState.Width.toNat + x) < aliveThreshold))
    (randomStep draws w.gameState.Grid)
    w.gameState.Grid _ _ (w.heap, 0) ok (List.nodup_append.1 hnd).1 (by simp)
    (fun y s hs => by
      have e : s.2 = y * w.gameState.Width.toNat + w.gameState.Width.toNat := hs
      show s.2 = (y + 1) * w.gameState.Width.toNat + 0
      rw [e]; ring)
    (by
      intro y x s a row _ _ hJ ha hrow hx
      refine ⟨(s.1.set a (row.set x ⟨decide (draws s.2 < aliveThreshold)⟩), s.2 + 1), ?_, ?_, ?_⟩
      · unfold randomStep
        simp only [storeAlive_eq ha hrow hx, Option.some_bind, Option.bind_eq_bind,
          Option.pure_def]
      · simp only [hJ]
      · simp only [hJ]; ring)
  exact ⟨s1, hrun, hfr, hlen, hcells⟩

/-- A state with another heap and the same globals keeps the invariant when the
new heap has the same row lengths. -/
theorem Invariant.keep_lengths {w : World} (hinv : Invariant w) (h1 : Heap)
    (hlen : ∀ a1 : Nat, (h1[a1]?).map List.length = (w.heap[a1]?).map List.length)
    (running : Bool) (step : Int) :
    Invariant ⟨h1, ⟨w.gameState.Grid, w.gameState.Width, w.gameState.Height, running, step⟩,
      w.backupGrid⟩ := by
  obtain ⟨hH, hW, ok, okb, hnd⟩ := hinv
  exact ⟨hH, hW, ok.of_lengths hlen, okb.of_lengths hlen, hnd⟩

/-! ## Router and controls -/

/-- On the `float32` values of the binade `[1/4, 1/2)`, the multiples of
`2^-25`, being below the constant of the code is being below `3/10`. -/
theorem aliveThreshold_iff (m : Nat) :
    ((m : ℚ) / 33554432 < aliveThreshold) ↔ ((m : ℚ) / 33554432 < 3 / 10) := by
  unfold aliveThreshold
  rw [div_lt_div_iff_of_pos_right (by norm_num), div_lt_div_iff₀ (by norm_num) (by norm_num)]
  constructor
  · intro h
    have h1 : m < 10066330 := by exact_mod_cast h
    have h2 : m * 10 < 3 * 33554432 := by omega
    exact_mod_cast h2
  · intro h
    have h1 : m * 10 < 3 * 33554432 := by exact_mod_cast h
    have h2 : m < 10066330 := by omega
    exact_mod_cast h2

/-- No `float32` lies between `3/10` and the constant the code compares with:
for a draw of `rand.Float32()`, being below the constant is being below 0.3. -/
theorem below_threshold_iff (q : ℚ) (hq : IsUnitFloat32 q) :
    q < aliveThreshold ↔ q < 3 / 10 := by
  obtain ⟨m, k, hm, hk, -, rfl⟩ := hq
  by_cases h26 : 26 ≤ k
  · have hpow : (2 : ℚ) ^ 26 ≤ 2 ^ k := pow_le_pow_right₀ (by norm_num) h26
    have hmq : (m : ℚ) < 16777216 := by exact_mod_cast hm
    have hlt : (m : ℚ) / 2 ^ k < 1 / 4 := by
      rw [div_lt_iff₀ (by positivity)]
      have : (1 / 4 : ℚ) * 2 ^ 26 ≤ 1 / 4 * 2 ^ k := by
        apply mul_le_mul_of_nonneg_left hpow (by norm_num)
      norm_num at this
      linarith
    constructor
    · intro _; linarith
    · intro _; unfold aliveThreshold; norm_num; linarith
  · have hk2 : k = 24 ∨ k = 25 := by omega
    rcases hk2 with rfl | rfl
    · have e : (m : ℚ) / 2 ^ 24 = ((2 * m : ℕ) : ℚ) / 33554432 := by
        push_cast; ring
      rw [e]
      exact aliveThreshold_iff (2 * m)
    · have e : (m : ℚ) / 2 ^ 25 = ((m : ℕ) : ℚ) / 33554432 := by
        norm_num
      rw [e]
      exact aliveThreshold_iff m

theorem buttonMarkup_ne : buttonMarkup "Auto Stop" ≠ buttonMarkup "Auto Start" := by
  decide

/-! ## Row-major order -/

/-- The loop of `ServeHTTP` finds the first route with the method and path of
the request, and finds none only when there is no such route. -/
theorem matchRoute_spec {η : Type} (routes : List (Route η)) (method path : String) :
    (∀ h, matchRoute routes method path = some h →
      ∃ pre route post, routes = pre ++ route :: post ∧
        route.Method = method ∧ route.Path = path ∧ route.Handler = h ∧
        ∀ r ∈ pre, ¬ (r.Method = method ∧ r.Path = path)) ∧
    (matchRoute routes method path = none →
      ∀ r ∈ routes, ¬ (r.Method = method ∧ r.Path = path)) := by
  induction routes with
  | nil =>
    constructor
    · intro h hm; simp [matchRoute] at hm
    · intro _ r hr; simp at hr
  | cons route rest ih =>
    by_cases hc : route.Method = method ∧ route.Path = path
    · constructor
      · intro h hm
        simp only [matchRoute, if_pos hc, Option.some.injEq] at hm
        exact ⟨[], route, rest, rfl, hc.1, hc.2, hm, by simp⟩
      · intro hm
        simp [matchRoute, if_pos hc] at hm
    · constructor
      · intro h hm
        simp only [matchRoute, if_neg hc] at hm
        obtain ⟨pre, r1, post, e, h1, h2, h3, h4⟩ := ih.1 h hm
        refine ⟨route :: pre, r1, post, by rw [e]; rfl, h1, h2, h3, ?_⟩
        intro r hr
        rcases List.mem_cons.1 hr with e1 | e1
        · rw [e1]; exact hc
        · exact h4 r e1
      · intro hm r hr
        simp only [matchRoute, if_neg hc] at hm
        rcases List.mem_cons.1 hr with e1 | e1
        · rw [e1]; exact hc
        · exact ih.2 hm r e1

theorem foldlM_flatMap {σ α β : Type} (l : List α) (f : α → List β) (g : σ → β → Option σ)
    (s : σ) :
    (l.flatMap f).foldlM g s = l.foldlM (fun s a => (f a).foldlM g s) s := by
  induction l generalizing s with
  | nil => rfl
  | cons a l ih =>
    rw [List.flatMap_cons, List.foldlM_append, List.foldlM_cons]
    cases (f a).foldlM g s with
    | none => rfl
    | some s1 => exact ih s1

/-- Two nested counting loops run their body once per cell, in row-major order. -/
theorem forRange_nested {σ : Type} (height width : Nat) (body : Nat → σ → Nat → Option σ)
    (s : σ) :
    forRange height (fun s y => forRange width (body y) s) s
      = (rowMajor height width).foldlM (fun s p => body p.2 s p.1) s := by
  unfold rowMajor forRange
  rw [foldlM_flatMap]
  congr 1
  funext s y
  rw [List.foldlM_map]

theorem rowMajor_mem (height width x y : Nat) :
    (x, y) ∈ rowMajor height width ↔ x < width ∧ y < height := by
  simp only [rowMajor, List.mem_flatMap, List.mem_range, List.mem_map, Prod.mk.injEq]
  constructor
  · rintro ⟨y1, hy1, x1, hx1, rfl, rfl⟩
    exact ⟨hx1, hy1⟩
  · rintro ⟨hx, hy⟩
    exact ⟨y, hy, x, hx, rfl, rfl⟩

theorem rowMajor_length (height width : Nat) :
    (rowMajor height width).length = width * height := by
  simp [rowMajor, List.length_flatMap, Function.comp_def, Nat.mul_comm]

theorem rowMajor_nodup (height width : Nat) : (rowMajor height width).Nodup := by
  unfold rowMajor
  rw [List.nodup_flatMap]
  constructor
  · intro y _
    exact (List.nodup_range width).map (fun a b h => by simpa using h)
  · apply (List.nodup_range height).pairwise_of_forall_ne
    intro y _ y1 _ hne p hp hp1
    simp only [List.mem_map, List.mem_range] at hp hp1
    obtain ⟨x, -, rfl⟩ := hp
    obtain ⟨x1, -, e⟩ := hp1
    exact hne (congrArg Prod.snd e).symm

/-- One cell of `nextGeneration` on buffers of the right shape, whether or not
they share rows: no index is out of range and all row lengths stay. -/
theorem cellStep_safe {h : Heap} {grid backup : Grid} {height width : Nat}
    (ok : GridOK h grid height width) (okb : GridOK h backup height width)
    {y x : Nat} (hy : y < height) (hx : x < width) :
    ∃ h1, cellStep grid backup y h x = some h1 ∧
      ∀ a1 : Nat, (h1[a1]?).map List.length = (h[a1]?).map List.length := by
  have hyb : y < backup.length := by rw [okb.1]; exact hy
  have ha : backup[y]? = some backup[y] := List.getElem?_eq_getElem hyb
  obtain ⟨row, hrow, hlen⟩ := okb.row (List.getElem_mem hyb)
  refine ⟨_, cellStep_eq ok hy hx ha hrow hlen, ?_⟩
  intro a1
  by_cases e : a1 = backup[y]
  · have hal : backup[y] < h.length := (List.getElem?_eq_some.1 hrow).1
    rw [e, List.getElem?_set_self hal, hrow]
    simp
  · rw [List.getElem?_set_ne (Ne.symm e)]

/-- The loops of `nextGeneration` never fail on buffers of the right shape. -/
theorem gridLoop_safe {h : Heap} {grid backup : Grid} {height width : Nat}
    (ok : GridOK h grid height width) (okb : GridOK h backup height width) :
    ∃ h1, forRange height (fun h1 y => forRange width (cellStep grid backup y) h1) h = some h1 ∧
      ∀ a1 : Nat, (h1[a1]?).map List.length = (h[a1]?).map List.length := by
  apply forRange_inv
    (fun _ h1 => ∀ a1 : Nat, (h1[a1]?).map List.length = (h[a1]?).map List.length)
  · exact fun _ => rfl
  · intro y h1 hy hlen
    apply forRange_inv
      (fun _ h2 => ∀ a1 : Nat, (h2[a1]?).map List.length = (h[a1]?).map List.length)
    · exact hlen
    · intro x h2 hx hlen2
      obtain ⟨h3, hrun, hl3⟩ := cellStep_safe (ok.of_lengths hlen2) (okb.of_lengths hlen2) hy hx
      exact ⟨h3, hrun, fun a1 => by rw [hl3 a1, hlen2 a1]⟩

/-! ## The operations keep the invariant -/

set_option maxRecDepth 100000 in
theorem mainInit_invariant : Invariant mainInit := by
  decide

set_option maxRecDepth 100000 in
/-- The state `main` builds: 60 backing arrays of 50 dead cells, the current
grid on the even addresses and the scratch buffer on the odd ones. -/
theorem mainInit_eq :
    mainInit.heap = List.replicate 60 (List.replicate 50 ⟨false⟩) ∧
    mainInit.gameState.Grid = (List.range 30).map (fun i => 2 * i) ∧
    mainInit.backupGrid = (List.range 30).map (fun i => 2 * i + 1) ∧
    mainInit.gameState.Step = 0 ∧ mainInit.gameState.Running = false := by
  decide

/-- Below the largest `int` the increment does not wrap. -/
theorem wrapInt_succ (n : Int) (h0 : -9223372036854775808 ≤ n) (h1 : n < 9223372036854775807) :
    wrapInt (n + 1) = n + 1 := by
  unfold wrapInt
  omega

/-- What `stepHandler` leaves, in terms of the heap `nextGeneration` produces. -/
theorem stepHandler_eq (w : World) (hinv : Invariant w) :
    ∃ h1 body, stepHandler w = some (⟨h1, ⟨w.backupGrid, w.gameState.Width,
        w.gameState.Height, false, wrapInt (w.gameState.Step + 1)⟩, w.gameState.Grid⟩,
        ⟨200, "text/html", body⟩) ∧
      Invariant ⟨h1, ⟨w.backupGrid, w.gameState.Width,
        w.gameState.Height, false, wrapInt (w.gameState.Step + 1)⟩, w.gameState.Grid⟩ := by
  obtain ⟨h1, hrun, hinv1, -, -⟩ := nextGeneration_of_invariant w hinv
  obtain ⟨body, hbody⟩ := renderGrid_total hinv1.2.2.1 hinv1.dims.2.2.1
  simp only [swapped] at hbody
  refine ⟨h1, body, ?_, hinv1⟩
  unfold stepHandler
  simp only [hrun, Option.some_bind, Option.bind_eq_bind]
  simp [swapped, hbody]

/-- What `autoStepHandler` leaves. -/
theorem autoStepHandler_eq (w : World) (hinv : Invariant w) :
    (w.gameState.Running = false → ∃ body,
      autoStepHandler w = some (w, ⟨200, "text/html", body⟩)) ∧
    (w.gameState.Running = true → ∃ h1 body,
      autoStepHandler w = some (⟨h1, ⟨w.backupGrid, w.gameState.Width,
        w.gameState.Height, true, wrapInt (w.gameState.Step + 1)⟩, w.gameState.Grid⟩,
        ⟨200, "text/html", body⟩) ∧
      Invariant ⟨h1, ⟨w.backupGrid, w.gameState.Width,
        w.gameState.Height, true, wrapInt (w.gameState.Step + 1)⟩, w.gameState.Grid⟩) := by
  constructor
  · intro hr
    obtain ⟨body, hbody⟩ := renderGrid_total hinv.2.2.1 hinv.dims.2.2.1
    exact ⟨body, by simp [autoStepHandler, hr, hbody]⟩
  · intro hr
    obtain ⟨h1, hrun, hinv1, -, -⟩ := nextGeneration_of_invariant w hinv
    obtain ⟨body, hbody⟩ := renderGrid_total hinv1.2.2.1 hinv1.dims.2.2.1
    simp only [swapped] at hbody
    refine ⟨h1, body, ?_, hinv1⟩
    unfold autoStepHandler
    simp only [hr, Bool.not_true, Bool.false_eq_true, if_false, hrun, Option.some_bind,
      Option.bind_eq_bind]
    simp [swapped, hbody, hr]

/-! ## Rendering cell by cell -/

/-- Every operation succeeds on a state satisfying the invariant and keeps the
invariant, `Width` and `Height`. -/
theorem Op.apply_invariant (w : World) (hinv : Invariant w) (op : Op) :
    ∃ w1, op.apply w = some w1 ∧ Invariant w1 ∧
      w1.gameState.Width = w.gameState.Width ∧ w1.gameState.Height = w.gameState.Height := by
  cases op with
  | step =>
    obtain ⟨h1, body, hrun, hinv1⟩ := stepHandler_eq w hinv
    exact ⟨_, by simp [Op.apply, hrun], hinv1, rfl, rfl⟩
  | autoStep =>
    cases hr : w.gameState.Running with
    | false =>
      obtain ⟨body, hrun⟩ := (autoStepHandler_eq w hinv).1 hr
      exact ⟨w, by simp [Op.apply, hrun], hinv, rfl, rfl⟩
    | true =>
      obtain ⟨h1, body, hrun, hinv1⟩ := (autoStepHandler_eq w hinv).2 hr
      exact ⟨_, by simp [Op.apply, hrun], hinv1, rfl, rfl⟩
  | toggleCell r =>
    by_cases hv : r.formError = false ∧ ∃ x y, r.x = some x ∧ r.y = some y ∧
        ¬ (x < 0 ∨ x ≥ w.gameState.Width ∨ y < 0 ∨ y ≥ w.gameState.Height)
    · obtain ⟨hf, x, y, hx, hy, hr⟩ := hv
      obtain ⟨h1, body, hrun, hlen⟩ := toggleCellHandler_valid w hinv x y (by omega) (by omega)
        (by omega) (by omega) r hf hx hy
      exact ⟨_, by simp [Op.apply, hrun],
        hinv.keep_lengths h1 hlen w.gameState.Running w.gameState.Step, rfl, rfl⟩
    · refine ⟨w, ?_, hinv, rfl, rfl⟩
      simp only [Op.apply, toggleCellHandler]
      cases hf : r.formError with
      | true => simp
      | false =>
        cases hx : r.x with
        | none => simp
        | some x =>
          cases hy : r.y with
          | none => simp
          | some y =>
            have hr : x < 0 ∨ x ≥ w.gameState.Width ∨ y < 0 ∨ y ≥ w.gameState.Height := by
              by_contra hc
              exact hv ⟨hf, x, y, hx, hy, hc⟩
            simp [hr]
  | clear =>
    obtain ⟨h1, hrun, -, hlen, -⟩ := clearLoop_spec w hinv
    have hinv1 := hinv.keep_lengths h1 hlen false 0
    obtain ⟨body, hbody⟩ := renderGrid_total hinv1.2.2.1 hinv1.dims.2.2.1
    refine ⟨_, ?_, hinv1, rfl, rfl⟩
    simp only [Op.apply, clearHandler, hrun, Option.some_bind, Option.bind_eq_bind]
    simp only [hbody, Option.some_bind, Option.pure_def, Option.map_some']
  | random draws =>
    obtain ⟨s1, hrun, -, hlen, -⟩ := randomLoop_spec w hinv draws
    have hinv1 := hinv.keep_lengths s1.1 hlen false 0
    obtain ⟨body, hbody⟩ := renderGrid_total hinv1.2.2.1 hinv1.dims.2.2.1
    refine ⟨_, ?_, hinv1, rfl, rfl⟩
    simp only [Op.apply, randomHandler, hrun, Option.some_bind, Option.bind_eq_bind]
    simp only [hbody, Option.some_bind, Option.pure_def, Option.map_some']
  | toggleAuto =>
    exact ⟨_, rfl, hinv, rfl, rfl⟩

theorem renderCell_class (c : Cell) (x y : Int) :
    renderCell c x y = cellMarkup (if c.Alive then "cell alive" else "cell") x y := by
  cases c with
  | mk al => cases al <;> rfl

theorem foldlM_parts {α : Type} (l : List α) (step : String → α → Option String)
    (f : α → String) (hstep : ∀ p ∈ l, ∀ s, step s p = some (s ++ f p)) (s0 : String) :
    l.foldlM step s0 = some ((l.map f).foldl (fun acc part => acc ++ part) s0) := by
  induction l generalizing s0 with
  | nil => rfl
  | cons p l ih =>
    rw [List.foldlM_cons, hstep p (List.mem_cons_self p l) s0]
    simp only [Option.some_bind, Option.bind_eq_bind, List.map_cons, List.foldl_cons]
    exact ih (fun q hq s => hstep q (List.mem_cons_of_mem p hq) s) _

/-- The bytes for the live cell at `(3, 1)`. -/
theorem renderCell_example :
    renderCell ⟨true⟩ 3 1
      = "<div class=\"cell alive\" hx-post=\"/api/toggle\" hx-vals=\x27\x7b\"x\":3,\"y\":1\x7d\x27 hx-target=\"this\" hx-swap=\"outerHTML\"></div>" := by
  decide

/-! ## The positions countNeighbors inspects -/

/-- The three wrapped positions around `n` on an axis of size `dim`: they are
pairwise distinct exactly when `dim` is at least 3, and the outer two coincide
otherwise. -/
theorem wrap_three (n dim : Int) (h0 : 0 ≤ n) (h1 : n < dim) :
    wrap (n + 0) dim = n ∧
    ((3 ≤ dim ∧ wrap (n + -1) dim ≠ n ∧ wrap (n + 1) dim ≠ n ∧
        wrap (n + -1) dim ≠ wrap (n + 1) dim) ∨
      (dim < 3 ∧ wrap (n + -1) dim = wrap (n + 1) dim)) := by
  unfold wrap
  constructor
  · split_ifs <;> omega
  · split_ifs <;> omega

theorem neighborPositions_nodup (height width x y : Int)
    (hx0 : 0 ≤ x) (hx : x < width) (hy0 : 0 ≤ y) (hy : y < height) :
    (((neighborPositions height width x y).Nodup ∧ (x, y) ∉ neighborPositions height width x y)
      ↔ (3 ≤ width ∧ 3 ≤ height)) ∧
    (¬ (3 ≤ width ∧ 3 ≤ height) → ¬ (neighborPositions height width x y).Nodup) := by
  obtain ⟨ex, hA⟩ := wrap_three x width hx0 hx
  obtain ⟨ey, hB⟩ := wrap_three y height hy0 hy
  simp only [neighborPositions, offsets, List.map_cons, List.map_nil, ex, ey]
  generalize wrap (x + -1) width = a at *
  generalize wrap (x + 1) width = c at *
  generalize wrap (y + -1) height = b at *
  generalize wrap (y + 1) height = d at *
  have dupA : a = c → ¬ [(a, b), (x, b), (c, b), (a, y), (c, y), (a, d), (x, d), (c, d)].Nodup := by
    intro e
    subst e
    simp
  have dupB : b = d → ¬ [(a, b), (x, b), (c, b), (a, y), (c, y), (a, d), (x, d), (c, d)].Nodup := by
    intro e
    subst e
    simp
  rcases hA with ⟨hw, a1, a2, a3⟩ | ⟨hw, a1⟩
  · rcases hB with ⟨hh, b1, b2, b3⟩ | ⟨hh, b1⟩
    · refine ⟨⟨fun _ => ⟨hw, hh⟩, fun _ => ?_⟩, fun hn => absurd ⟨hw, hh⟩ hn⟩
      simp [a1, a2, a3, b1, b2, b3, Ne.symm a1, Ne.symm a2, Ne.symm a3, Ne.symm b1, Ne.symm b2,
        Ne.symm b3]
    · exact ⟨⟨fun hn => absurd hn.1 (dupB b1), fun hn => absurd hn.2 (by omega)⟩,
        fun _ => dupB b1⟩
  · exact ⟨⟨fun hn => absurd hn.1 (dupA a1), fun hn => absurd hn.1 (by omega)⟩,
      fun _ => dupA a1⟩

theorem liveNeighbors_positions (h : Heap) (grid : Grid) (height width : Nat) (x y : Int) :
    liveNeighbors h grid height width x y
      = (neighborPositions height width x y).countP (fun p => liveAt h grid p.2 p.1) := by
  unfold liveNeighbors neighborPositions
  rw [List.countP_map]
  rfl

theorem countOn_full1 : countOn (fun _ _ => true) 1 1 0 0 = 8 := by
  decide

/-! ## The blinker -/

/-- A column of three: a live cell survives with its two neighbours in the
column, the two cells beside the middle are born, everything else is dead. -/
theorem count8_column (a b : Int → Bool)
    (ha : ¬ (a (-1) = true ∧ a 0 = true) ∧ ¬ (a 0 = true ∧ a 1 = true) ∧
      ¬ (a (-1) = true ∧ a 1 = true)) :
    rule (a 0 && b 0) (count8 a b) = ((b (-1) && b 0 && b 1) && (a (-1) || a 0 || a 1)) := by
  unfold count8 offsets rule
  simp only [List.countP_cons, List.countP_nil]
  generalize a (-1) = a1 at *
  generalize a 0 = a2 at *
  generalize a 1 = a3 at *
  generalize b (-1) = b1 at *
  generalize b 0 = b2 at *
  generalize b 1 = b3 at *
  revert a1 a2 a3 b1 b2 b3
  decide

/-- The same for a row of three. -/
theorem count8_row (a b : Int → Bool)
    (hb : ¬ (b (-1) = true ∧ b 0 = true) ∧ ¬ (b 0 = true ∧ b 1 = true) ∧
      ¬ (b (-1) = true ∧ b 1 = true)) :
    rule (a 0 && b 0) (count8 a b) = ((a (-1) && a 0 && a 1) && (b (-1) || b 0 || b 1)) := by
  unfold count8 offsets rule
  simp only [List.countP_cons, List.countP_nil]
  generalize a (-1) = a1 at *
  generalize a 0 = a2 at *
  generalize a 1 = a3 at *
  generalize b (-1) = b1 at *
  generalize b 0 = b2 at *
  generalize b 1 = b3 at *
  revert a1 a2 a3 b1 b2 b3
  decide

/-- Along one axis of a torus of size at least 4, for a centre `c` with its
two neighbours `cm`, `cp`: at most one of the three wrapped positions around
`n` is the centre, all three are in the span exactly when `n` is the centre,
and one of them is the centre exactly when `n` is in the span. -/
theorem axis3 (n dim c : Int) (h4 : 4 ≤ dim) (h0 : 0 ≤ n) (h1 : n < dim) :
    (¬ (ptAt n dim (c % dim) (-1) = true ∧ ptAt n dim (c % dim) 0 = true) ∧
      ¬ (ptAt n dim (c % dim) 0 = true ∧ ptAt n dim (c % dim) 1 = true) ∧
      ¬ (ptAt n dim (c % dim) (-1) = true ∧ ptAt n dim (c % dim) 1 = true)) ∧
    ptAt n dim (c % dim) 0 = decide (n = c % dim) ∧
    sp3At n dim ((c - 1) % dim) (c % dim) ((c + 1) % dim) 0
      = decide (n = (c - 1) % dim ∨ n = c % dim ∨ n = (c + 1) % dim) ∧
    (sp3At n dim ((c - 1) % dim) (c % dim) ((c + 1) % dim) (-1)
      && sp3At n dim ((c - 1) % dim) (c % dim) ((c + 1) % dim) 0
      && sp3At n dim ((c - 1) % dim) (c % dim) ((c + 1) % dim) 1) = decide (n = c % dim) ∧
    (ptAt n dim (c % dim) (-1) || ptAt n dim (c % dim) 0 || ptAt n dim (c % dim) 1)
      = decide (n = (c - 1) % dim ∨ n = c % dim ∨ n = (c + 1) % dim) := by
  obtain ⟨c0, c1, hp⟩ := succ_emod c dim (by omega)
  obtain ⟨m0, m1, hm⟩ := succ_emod (c - 1) dim (by omega)
  rw [show c - 1 + 1 = c by ring] at hm
  have p1 : (c + 1) % dim < dim := Int.emod_lt_of_pos _ (by omega)
  have p0 : 0 ≤ (c + 1) % dim := Int.emod_nonneg _ (by omega)
  have e0 : wrap (n + 0) dim = n := by unfold wrap; split_ifs <;> omega
  have em : (1 ≤ n ∧ wrap (n + -1) dim = n - 1) ∨ (n = 0 ∧ wrap (n + -1) dim = dim - 1) := by
    unfold wrap; split_ifs <;> omega
  have ep : (n + 1 < dim ∧ wrap (n + 1) dim = n + 1) ∨ (n = dim - 1 ∧ wrap (n + 1) dim = 0) := by
    unfold wrap; split_ifs <;> omega
  simp only [ptAt, sp3At, e0]
  generalize wrap (n + -1) dim = m at *
  generalize wrap (n + 1) dim = p at *
  generalize (c + 1) % dim = cp at *
  generalize (c - 1) % dim = cm at *
  generalize c % dim = cc at *
  refine ⟨⟨?_, ?_, ?_⟩, trivial, trivial, ?_, ?_⟩
  · simp only [decide_eq_true_eq]; omega
  · simp only [decide_eq_true_eq]; omega
  · simp only [decide_eq_true_eq]; omega
  · rw [Bool.eq_iff_iff]
    simp only [Bool.and_eq_true, decide_eq_true_eq]
    omega
  · rw [Bool.eq_iff_iff]
    simp only [Bool.or_eq_true, decide_eq_true_eq]
    omega

theorem rule_blinkerV (x0 y0 height width x y : Int) (hw : 4 ≤ width) (hh : 4 ≤ height)
    (hx0 : 0 ≤ x) (hx : x < width) (hy0 : 0 ≤ y) (hy : y < height) :
    rule (blinkerV x0 y0 height width y x)
      (countOn (blinkerV x0 y0 height width) height width x y)
      = blinkerH x0 y0 height width y x := by
  obtain ⟨px, px0, -, -, pxs⟩ := axis3 x width x0 hw hx0 hx
  obtain ⟨-, -, sy0, sy1, -⟩ := axis3 y height y0 hh hy0 hy
  have key := count8_column (ptAt x width (x0 % width))
    (sp3At y height ((y0 - 1) % height) (y0 % height) ((y0 + 1) % height)) px
  have e : countOn (blinkerV x0 y0 height width) height width x y = count8
      (ptAt x width (x0 % width))
      (sp3At y height ((y0 - 1) % height) (y0 % height) ((y0 + 1) % height)) := by
    simp only [countOn, count8, blinkerV, ptAt, sp3At]
  rw [e, show blinkerV x0 y0 height width y x = (ptAt x width (x0 % width) 0 &&
      sp3At y height ((y0 - 1) % height) (y0 % height) ((y0 + 1) % height) 0) by
    rw [px0, sy0]; rfl, key, sy1, pxs, Bool.and_comm]
  rfl

theorem rule_blinkerH (x0 y0 height width x y : Int) (hw : 4 ≤ width) (hh : 4 ≤ height)
    (hx0 : 0 ≤ x) (hx : x < width) (hy0 : 0 ≤ y) (hy : y < height) :
    rule (blinkerH x0 y0 height width y x)
      (countOn (blinkerH x0 y0 height width) height width x y)
      = blinkerV x0 y0 height width y x := by
  obtain ⟨-, -, sx0, sx1, -⟩ := axis3 x width x0 hw hx0 hx
  obtain ⟨py, py0, -, -, pys⟩ := axis3 y height y0 hh hy0 hy
  have key := count8_row
    (sp3At x width ((x0 - 1) % width) (x0 % width) ((x0 + 1) % width))
    (ptAt y height (y0 % height)) py
  have e : countOn (blinkerH x0 y0 height width) height width x y = count8
      (sp3At x width ((x0 - 1) % width) (x0 % width) ((x0 + 1) % width))
      (ptAt y height (y0 % height)) := by
    simp only [countOn, count8, blinkerH, ptAt, sp3At]
  rw [e, show blinkerH x0 y0 height width y x =
      (sp3At x width ((x0 - 1) % width) (x0 % width) ((x0 + 1) % width) 0 &&
        ptAt y height (y0 % height) 0) by
    rw [py0, sx0]; rfl, key, sx1, pys]
  rfl

/-! ## The claims -/

/-- C1: for a well-formed grid `g` and a scratch buffer of the same dimensions
that is a different buffer from `g` (its rows are distinct arrays, none shared
with `g`), `nextGeneration(g)` returns a grid `r` of the same dimensions in which
the cell `(x, y)` is alive exactly when `g[y][x]` is alive with 2 or 3 live
neighbours or dead with exactly 3, the neighbour counts being those of
`countNeighbors` on the input grid in the heap before the call. -/
theorem nextGeneration_applies_rule (w : World) (grid : Grid) (height width : Nat)
    (hh : 1 ≤ height)
    (ok : GridOK w.heap grid height width) (okb : GridOK w.heap w.backupGrid height width)
    (hnd : w.backupGrid.Nodup) (hdisj : ∀ a ∈ grid, a ∉ w.backupGrid) :
    ∃ w1 r, nextGeneration w grid = some (w1, r) ∧ GridOK w1.heap r height width ∧
      ∀ x y : Nat, x < width → y < height →
        ∃ c c0 n, load w1.heap r y x = some c ∧ load w.heap grid y x = some c0 ∧
          countNeighbors w.heap grid x y = some n ∧
          (c.Alive = true ↔
            (c0.Alive = true ∧ (n = 2 ∨ n = 3)) ∨ (c0.Alive = false ∧ n = 3)) := by
  obtain ⟨h1, hrun, -, hlen, hcells⟩ := nextGeneration_spec w grid height width ok okb hh hnd hdisj
  refine ⟨_, _, hrun, okb.of_lengths hlen, ?_⟩
  intro x y hx hy
  have hxi : (x : Int) < width := by exact_mod_cast hx
  have hyi : (y : Int) < height := by exact_mod_cast hy
  obtain ⟨-, -, c0, -, -, -, -, hl⟩ := load_of_range ok (y : Int) (x : Int)
    (Int.natCast_nonneg y) hyi (Int.natCast_nonneg x) hxi
  refine ⟨_, c0, _, hcells y x hy hx, hl,
    countNeighbors_eq ok (Int.natCast_nonneg x) hxi (Int.natCast_nonneg y) hyi, ?_⟩
  simp only [nextCell, liveAt_of_load hl]
  exact rule_iff _ _

theorem nextGeneration_applies_rule_witness :
    (1 ≤ 3 ∧ GridOK blinker3.heap [0, 2, 4] 3 3 ∧ GridOK blinker3.heap blinker3.backupGrid 3 3) ∧
    ∃ w1 r, nextGeneration blinker3 [0, 2, 4] = some (w1, r) ∧ GridOK w1.heap r 3 3 ∧
      ∀ x y : Nat, x < 3 → y < 3 →
        ∃ c c0 n, load w1.heap r y x = some c ∧ load blinker3.heap [0, 2, 4] y x = some c0 ∧
          countNeighbors blinker3.heap [0, 2, 4] x y = some n ∧
          (c.Alive = true ↔
            (c0.Alive = true ∧ (n = 2 ∨ n = 3)) ∨ (c0.Alive = false ∧ n = 3)) :=
  ⟨by decide, nextGeneration_applies_rule blinker3 [0, 2, 4] 3 3 (by decide) (by decide)
    (by decide) (by decide) (by decide)⟩

/-- C2: on a well-formed grid, `countNeighbors(g, x, y)` returns the number of
offsets `(dx, dy)` in `{-1,0,1} x {-1,0,1}` other than `(0,0)` for which the cell
`g[(y+dy) mod h][(x+dx) mod w]` is alive; at each of these offsets the code's
single-step wrap equals the reduction modulo the dimension; the result lies in
`[0, 8]`; and when the cell at `(w-1, h-1)` is alive, `countNeighbors(g, 0, 0)` is
at least 1. -/
theorem countNeighbors_counts_torus (h : Heap) (grid : Grid) (height width x y : Nat)
    (ok : GridOK h grid height width) (hx : x < width) (hy : y < height) :
    ∃ n : Int, countNeighbors h grid x y = some n ∧
      n = (neighborOffsets.filter (fun d =>
        load h grid ((y + d.2) % height) ((x + d.1) % width) = some ⟨true⟩)).card ∧
      (∀ d ∈ neighborOffsets, wrap (y + d.2) height = (y + d.2) % height ∧
        wrap (x + d.1) width = (x + d.1) % width) ∧
      0 ≤ n ∧ n ≤ 8 ∧
      (load h grid ((height : Int) - 1) ((width : Int) - 1) = some ⟨true⟩ →
        ∃ m : Int, countNeighbors h grid 0 0 = some m ∧ 1 ≤ m) := by
  have hxi : (x : Int) < width := by exact_mod_cast hx
  have hyi : (y : Int) < height := by exact_mod_cast hy
  refine ⟨_, countNeighbors_eq ok (Int.natCast_nonneg x) hxi (Int.natCast_nonneg y) hyi,
    ?_, ?_, Int.natCast_nonneg _, ?_, ?_⟩
  · rw [liveNeighbors_eq_card (Int.natCast_nonneg x) hxi (Int.natCast_nonneg y) hyi]
  · intro d hd
    rw [neighborOffsets_eq, List.mem_toFinset] at hd
    obtain ⟨⟨a1, a2⟩, b1, b2⟩ := offsets_bounds d hd
    exact ⟨wrap_eq_emod y height d.2 (Int.natCast_nonneg y) hyi b1 b2,
      wrap_eq_emod x width d.1 (Int.natCast_nonneg x) hxi a1 a2⟩
  · exact_mod_cast liveNeighbors_le h grid height width x y
  · intro hl
    have hw0 : (0 : Int) < width := by omega
    have hh0 : (0 : Int) < height := by omega
    refine ⟨_, countNeighbors_eq ok (le_refl 0) hw0 (le_refl 0) hh0, ?_⟩
    have hmem : ((-1 : Int), (-1 : Int)) ∈ offsets := by decide
    have hpos : 0 < liveNeighbors h grid height width 0 0 := by
      unfold liveNeighbors
      rw [List.countP_pos_iff]
      refine ⟨(-1, -1), hmem, ?_⟩
      rw [liveAt_iff]
      simpa [wrap] using hl
    omega

theorem countNeighbors_counts_torus_witness :
    (GridOK blinker3.heap [0, 2, 4] 3 3 ∧ 0 < 3) ∧
    ∃ n : Int, countNeighbors blinker3.heap [0, 2, 4] (0 : Nat) (0 : Nat) = some n ∧
      n = (neighborOffsets.filter (fun d =>
        load blinker3.heap [0, 2, 4] (((0 : Nat) + d.2) % (3 : Nat)) (((0 : Nat) + d.1) % (3 : Nat))
          = some ⟨true⟩)).card ∧
      (∀ d ∈ neighborOffsets, wrap ((0 : Nat) + d.2) (3 : Nat) = ((0 : Nat) + d.2) % (3 : Nat) ∧
        wrap ((0 : Nat) + d.1) (3 : Nat) = ((0 : Nat) + d.1) % (3 : Nat)) ∧
      0 ≤ n ∧ n ≤ 8 ∧
      (load blinker3.heap [0, 2, 4] (((3 : Nat) : Int) - 1) (((3 : Nat) : Int) - 1) = some ⟨true⟩ →
        ∃ m : Int, countNeighbors blinker3.heap [0, 2, 4] 0 0 = some m ∧ 1 ≤ m) :=
  ⟨by decide, countNeighbors_counts_torus blinker3.heap [0, 2, 4] 3 3 0 0 (by decide)
    (by decide) (by decide)⟩

/-- C3 as stated fails: on the 3x3 state `blinker3`, whose current grid has
exactly `(1,0)`, `(1,1)`, `(1,2)` alive, it is not the case that `nextGeneration`
returns the grid whose only live cells are `(0,1)`, `(1,1)`, `(2,1)` and then,
applied again, the original grid. -/
theorem blinker3_not_oscillator :
    ¬ ∃ w1 r1 w2 r2, nextGeneration blinker3 blinker3.gameState.Grid = some (w1, r1) ∧
      (∀ x y : Nat, x < 3 → y < 3 → load w1.heap r1 y x = some ⟨decide (y = 1)⟩) ∧
      nextGeneration w1 r1 = some (w2, r2) ∧
      (∀ x y : Nat, x < 3 → y < 3 → load w2.heap r2 y x = some ⟨decide (x = 1)⟩) := by
  rintro ⟨w1, r, -, -, hrun, hcells, -, -⟩
  have e : nextGeneration blinker3 blinker3.gameState.Grid = some
      (⟨[[⟨false⟩, ⟨true⟩, ⟨false⟩], [⟨true⟩, ⟨true⟩, ⟨true⟩],
         [⟨false⟩, ⟨true⟩, ⟨false⟩], [⟨true⟩, ⟨true⟩, ⟨true⟩],
         [⟨false⟩, ⟨true⟩, ⟨false⟩], [⟨true⟩, ⟨true⟩, ⟨true⟩]],
        ⟨[1, 3, 5], 3, 3, false, 0⟩, [0, 2, 4]⟩, [1, 3, 5]) := by
    decide
  rw [e] at hrun
  cases hrun
  have h00 := hcells 0 0 (by decide) (by decide)
  revert h00
  decide

/-- C3, amended: on a 3x3 state satisfying the invariant whose current grid has
exactly the cells `(1,0)`, `(1,1)`, `(1,2)` alive, one application of
`nextGeneration` returns the grid with all nine cells alive (the column wraps
onto itself on the 3-high torus), and a second application returns the grid
with all nine cells dead. -/
theorem blinker3_fills_then_dies (w : World) (hinv : Invariant w)
    (hW : w.gameState.Width = 3) (hH : w.gameState.Height = 3)
    (hcells : ∀ x y : Nat, x < 3 → y < 3 →
      load w.heap w.gameState.Grid y x = some ⟨decide (x = 1)⟩) :
    ∃ w1 r1 w2 r2, nextGeneration w w.gameState.Grid = some (w1, r1) ∧
      (∀ x y : Nat, x < 3 → y < 3 → load w1.heap r1 y x = some ⟨true⟩) ∧
      nextGeneration w1 r1 = some (w2, r2) ∧
      (∀ x y : Nat, x < 3 → y < 3 → load w2.heap r2 y x = some ⟨false⟩) := by
  obtain ⟨h1, hrun1, hinv1, -, hc1⟩ := nextGeneration_board_of_invariant w hinv
    (fun _ x => decide (x = 1))
    (fun x y hx hy => by
      rw [hcells x y (by omega) (by omega)]
      simp)
  have full : ∀ x y : Nat, x < 3 → y < 3 → load h1 w.backupGrid y x = some ⟨true⟩ := by
    intro x y hx hy
    rw [hc1 x y (by omega) (by omega), hW, hH]
    exact congrArg (fun b => some (Cell.mk b)) (rule_blinker3 ⟨x, hx⟩ ⟨y, hy⟩)
  obtain ⟨h2, hrun2, -, -, hc2⟩ := nextGeneration_board_of_invariant (swapped w h1) hinv1
    (fun _ _ => true)
    (fun x y hx hy => full x y (by simp [swapped] at hx; omega) (by simp [swapped] at hy; omega))
  refine ⟨_, _, _, _, hrun1, full, hrun2, ?_⟩
  intro x y hx hy
  have := hc2 x y (by simp [swapped]; omega) (by simp [swapped]; omega)
  simp only [swapped, hW, hH] at this ⊢
  rw [this]
  exact congrArg (fun b => some (Cell.mk b)) (rule_full3 ⟨x, hx⟩ ⟨y, hy⟩)

theorem blinker3_fills_then_dies_witness :
    (Invariant blinker3 ∧ blinker3.gameState.Width = 3 ∧ blinker3.gameState.Height = 3) ∧
    ∃ w1 r1 w2 r2, nextGeneration blinker3 blinker3.gameState.Grid = some (w1, r1) ∧
      (∀ x y : Nat, x < 3 → y < 3 → load w1.heap r1 y x = some ⟨true⟩) ∧
      nextGeneration w1 r1 = some (w2, r2) ∧
      (∀ x y : Nat, x < 3 → y < 3 → load w2.heap r2 y x = some ⟨false⟩) :=
  ⟨by decide, blinker3_fills_then_dies blinker3 (by decide) (by decide) (by decide)
    (by intro x y hx hy; interval_cases x <;> interval_cases y <;> decide)⟩

/-- C4: the neighbour count is invariant under toroidal translation.  If `g1`
is a grid of the same dimensions as `g` with
`g1[(y+b) mod h][(x+a) mod w] = g[y][x]` for all cells, then
`countNeighbors(g1, (x+a) mod w, (y+b) mod h) = countNeighbors(g, x, y)`, and
both calls return a count. -/
theorem countNeighbors_translation (h h1 : Heap) (g g1 : Grid) (height width : Nat)
    (a b : Int) (x y : Nat)
    (ok : GridOK h g height width) (ok1 : GridOK h1 g1 height width)
    (hx : x < width) (hy : y < height)
    (hshift : ∀ u v : Nat, u < width → v < height →
      load h1 g1 ((v + b) % height) ((u + a) % width) = load h g v u) :
    ∃ n : Int, countNeighbors h g x y = some n ∧
      countNeighbors h1 g1 ((x + a) % width) ((y + b) % height) = some n := by
  have hxi : (x : Int) < width := by exact_mod_cast hx
  have hyi : (y : Int) < height := by exact_mod_cast hy
  have hW : (0 : Int) < width := by omega
  have hH : (0 : Int) < height := by omega
  refine ⟨_, countNeighbors_eq ok (Int.natCast_nonneg x) hxi (Int.natCast_nonneg y) hyi, ?_⟩
  rw [countNeighbors_eq ok1 (Int.emod_nonneg _ (ne_of_gt hW)) (Int.emod_lt_of_pos _ hW)
    (Int.emod_nonneg _ (ne_of_gt hH)) (Int.emod_lt_of_pos _ hH)]
  congr 2
  unfold liveNeighbors
  apply List.countP_congr
  intro d hd
  obtain ⟨⟨a1, a2⟩, b1, b2⟩ := offsets_bounds d hd
  obtain ⟨ex, ex0, ex1⟩ := shift_wrap x width d.1 a (Int.natCast_nonneg x) hxi a1 a2
  obtain ⟨ey, ey0, ey1⟩ := shift_wrap y height d.2 b (Int.natCast_nonneg y) hyi b1 b2
  have e := hshift (wrap (x + d.1) width).toNat (wrap (y + d.2) height).toNat
    (by omega) (by omega)
  rw [Int.toNat_of_nonneg ex0, Int.toNat_of_nonneg ey0] at e
  simp only [liveAt, ex, ey, e]

theorem countNeighbors_translation_witness :
    (GridOK blinker3.heap [0, 2, 4] 3 3 ∧ GridOK blinker3.heap [4, 0, 2] 3 3) ∧
    ∃ n : Int, countNeighbors blinker3.heap [0, 2, 4] (2 : Nat) (1 : Nat) = some n ∧
      countNeighbors blinker3.heap [4, 0, 2] (((2 : Nat) + 0) % (3 : Nat))
        (((1 : Nat) + 1) % (3 : Nat)) = some n :=
  ⟨by decide, countNeighbors_translation blinker3.heap blinker3.heap [0, 2, 4] [4, 0, 2] 3 3 0 1
    2 1 (by decide) (by decide) (by decide) (by decide)
    (by intro u v hu hv; interval_cases u <;> interval_cases v <;> decide)⟩

/-- C5: on a grid at least 4 wide and 4 high whose live cells are exactly a 2x2
block (coordinates modulo the dimensions, so the block may straddle the edge),
every block cell has exactly 3 live neighbours, every other cell at most 2, and
`nextGeneration` returns a grid equal cell for cell to the input. -/
theorem block_still_life (w : World) (grid : Grid) (height width : Nat) (x0 y0 : Int)
    (hw : 4 ≤ width) (hh : 4 ≤ height)
    (ok : GridOK w.heap grid height width) (okb : GridOK w.heap w.backupGrid height width)
    (hnd : w.backupGrid.Nodup) (hdisj : ∀ a ∈ grid, a ∉ w.backupGrid)
    (hblock : ∀ x y : Nat, x < width → y < height →
      load w.heap grid y x = some ⟨inBlock x0 y0 height width y x⟩) :
    (∀ x y : Nat, x < width → y < height →
      ∃ n : Int, countNeighbors w.heap grid x y = some n ∧
        (inBlock x0 y0 height width y x = true → n = 3) ∧
        (inBlock x0 y0 height width y x = false → n ≤ 2)) ∧
    ∃ w1 r, nextGeneration w grid = some (w1, r) ∧ GridOK w1.heap r height width ∧
      ∀ x y : Nat, x < width → y < height → load w1.heap r y x = load w.heap grid y x := by
  have hwi : (4 : Int) ≤ width := by exact_mod_cast hw
  have hhi : (4 : Int) ≤ height := by exact_mod_cast hh
  have cnt : ∀ x y : Nat, x < width → y < height →
      liveNeighbors w.heap grid height width x y
        = countOn (inBlock x0 y0 height width) height width x y ∧
      (inBlock x0 y0 height width y x = true →
        countOn (inBlock x0 y0 height width) height width x y = 3) ∧
      (inBlock x0 y0 height width y x = false →
        countOn (inBlock x0 y0 height width) height width x y ≤ 2) := by
    intro x y hx hy
    have hxi : (x : Int) < width := by exact_mod_cast hx
    have hyi : (y : Int) < height := by exact_mod_cast hy
    exact ⟨liveNeighbors_eq_countOn _ (liveAt_board _ hblock) (Int.natCast_nonneg x) hxi
      (Int.natCast_nonneg y) hyi,
      countOn_block x0 y0 height width x y hwi hhi (Int.natCast_nonneg x) hxi
        (Int.natCast_nonneg y) hyi⟩
  constructor
  · intro x y hx hy
    have hxi : (x : Int) < width := by exact_mod_cast hx
    have hyi : (y : Int) < height := by exact_mod_cast hy
    obtain ⟨c1, c2, c3⟩ := cnt x y hx hy
    refine ⟨_, countNeighbors_eq ok (Int.natCast_nonneg x) hxi (Int.natCast_nonneg y) hyi, ?_, ?_⟩
    · intro hb; rw [c1, c2 hb]; rfl
    · intro hb; rw [c1]; exact_mod_cast c3 hb
  · obtain ⟨h1, hrun, -, hlen, hcells⟩ := nextGeneration_board w grid height width ok okb
      (by omega) hnd hdisj (inBlock x0 y0 height width) hblock
    refine ⟨_, _, hrun, okb.of_lengths hlen, ?_⟩
    intro x y hx hy
    obtain ⟨-, c2, c3⟩ := cnt x y hx hy
    show load h1 w.backupGrid y x = _
    rw [hcells x y hx hy, hblock x y hx hy]
    congr 2
    cases hb : inBlock x0 y0 height width y x
    · have := c3 hb
      unfold rule
      simp only [Bool.false_and, Bool.not_false, Bool.true_and]
      have h3 : ((countOn (inBlock x0 y0 height width) height width x y : Nat) : Int) ≠ 3 := by
        omega
      simp [h3]
    · rw [c2 hb]; rfl

theorem block_still_life_witness :
    (GridOK block4.heap [0, 2, 4, 6] 4 4 ∧ GridOK block4.heap block4.backupGrid 4 4) ∧
    ∃ w1 r, nextGeneration block4 [0, 2, 4, 6] = some (w1, r) ∧ GridOK w1.heap r 4 4 ∧
      ∀ x y : Nat, x < 4 → y < 4 → load w1.heap r y x = load block4.heap [0, 2, 4, 6] y x :=
  ⟨by decide, (block_still_life block4 [0, 2, 4, 6] 4 4 3 3 (by decide) (by decide) (by decide)
    (by decide) (by decide) (by decide)
    (by intro x y hx hy; interval_cases x <;> interval_cases y <;> decide)).2⟩

/-- C6: on a well-formed grid in which every cell is dead, `nextGeneration`
returns a grid of the same dimensions in which every cell is dead; nothing is
assumed about what the scratch buffer held before the call. -/
theorem all_dead_stays_dead (w : World) (grid : Grid) (height width : Nat)
    (hh : 1 ≤ height)
    (ok : GridOK w.heap grid height width) (okb : GridOK w.heap w.backupGrid height width)
    (hnd : w.backupGrid.Nodup) (hdisj : ∀ a ∈ grid, a ∉ w.backupGrid)
    (hdead : ∀ x y : Nat, x < width → y < height → load w.heap grid y x = some ⟨false⟩) :
    ∃ w1 r, nextGeneration w grid = some (w1, r) ∧ GridOK w1.heap r height width ∧
      ∀ x y : Nat, x < width → y < height → load w1.heap r y x = some ⟨false⟩ := by
  obtain ⟨h1, hrun, -, hlen, hcells⟩ := nextGeneration_board w grid height width ok okb hh
    hnd hdisj (fun _ _ => false) hdead
  refine ⟨_, _, hrun, okb.of_lengths hlen, ?_⟩
  intro x y hx hy
  show load h1 w.backupGrid y x = _
  rw [hcells x y hx hy, countOn_dead]
  rfl

theorem all_dead_stays_dead_witness :
    (GridOK dead3.heap [0, 2, 4] 3 3 ∧ GridOK dead3.heap dead3.backupGrid 3 3) ∧
    ∃ w1 r, nextGeneration dead3 [0, 2, 4] = some (w1, r) ∧ GridOK w1.heap r 3 3 ∧
      ∀ x y : Nat, x < 3 → y < 3 → load w1.heap r y x = some ⟨false⟩ :=
  ⟨by decide, all_dead_stays_dead dead3 [0, 2, 4] 3 3 (by decide) (by decide) (by decide)
    (by decide) (by decide)
    (by intro x y hx hy; interval_cases x <;> interval_cases y <;> decide)⟩

/-- C7: the grid `nextGeneration` returns depends only on the cells of the
current grid.  Two states that satisfy the invariant, have the same dimensions
and hold equal current grids cell for cell get grids that are equal cell for
cell, whatever their scratch buffers, step counters and running flags are. -/
theorem nextGeneration_deterministic (w v : World) (hw : Invariant w) (hv : Invariant v)
    (hW : w.gameState.Width = v.gameState.Width) (hH : w.gameState.Height = v.gameState.Height)
    (hcells : ∀ x y : Nat, (x : Int) < w.gameState.Width → (y : Int) < w.gameState.Height →
      load w.heap w.gameState.Grid y x = load v.heap v.gameState.Grid y x) :
    ∃ w1 r v1 s, nextGeneration w w.gameState.Grid = some (w1, r) ∧
      nextGeneration v v.gameState.Grid = some (v1, s) ∧
      ∀ x y : Nat, (x : Int) < w.gameState.Width → (y : Int) < w.gameState.Height →
        ∃ c, load w1.heap r y x = some c ∧ load v1.heap s y x = some c := by
  have hd := hw.dims
  have hf : ∀ x y : Nat, (x : Int) < w.gameState.Width → (y : Int) < w.gameState.Height →
      load w.heap w.gameState.Grid y x
        = some ⟨liveAt w.heap w.gameState.Grid y x⟩ := by
    intro x y hx hy
    obtain ⟨-, -, c, -, -, -, -, hl⟩ := load_of_range hw.2.2.1 (y : Int) (x : Int)
      (Int.natCast_nonneg y) (by omega) (Int.natCast_nonneg x) (by omega)
    rw [liveAt_of_load hl, hl]
  obtain ⟨h1, hrun1, -, -, hc1⟩ := nextGeneration_board_of_invariant w hw
    (liveAt w.heap w.gameState.Grid) hf
  obtain ⟨h2, hrun2, -, -, hc2⟩ := nextGeneration_board_of_invariant v hv
    (liveAt w.heap w.gameState.Grid)
    (fun x y hx hy => by
      rw [← hcells x y (by omega) (by omega)]
      exact hf x y (by omega) (by omega))
  refine ⟨_, _, _, _, hrun1, hrun2, ?_⟩
  intro x y hx hy
  refine ⟨_, hc1 x y hx hy, ?_⟩
  show load h2 v.backupGrid y x = _
  rw [hc2 x y (by omega) (by omega), hW, hH]

theorem nextGeneration_deterministic_witness :
    (Invariant blinker3 ∧ Invariant blinker3b) ∧
    ∃ w1 r v1 s, nextGeneration blinker3 blinker3.gameState.Grid = some (w1, r) ∧
      nextGeneration blinker3b blinker3b.gameState.Grid = some (v1, s) ∧
      ∀ x y : Nat, (x : Int) < blinker3.gameState.Width →
        (y : Int) < blinker3.gameState.Height →
        ∃ c, load w1.heap r y x = some c ∧ load v1.heap s y x = some c :=
  ⟨by decide, nextGeneration_deterministic blinker3 blinker3b (by decide) (by decide) rfl rfl
    (by
      intro x y hx hy
      have hx3 : x < 3 := by
        have e : (x : Int) < 3 := hx
        omega
      have hy3 : y < 3 := by
        have e : (y : Int) < 3 := hy
        omega
      interval_cases x <;> interval_cases y <;> decide)⟩

/-- C8 as stated fails: `stepMax4` satisfies the grid invariant and has the
step counter at `2^63 - 1`, the largest `int`; `stepHandler` does not leave the
counter at the old value plus one (it wraps to `-2^63`). -/
theorem stepHandler_wraps :
    Invariant stepMax4 ∧
    ¬ ∃ w1 resp, stepHandler stepMax4 = some (w1, resp) ∧
      w1.gameState.Step = stepMax4.gameState.Step + 1 := by
  refine ⟨by decide, ?_⟩
  rintro ⟨w1, resp, hrun, hstep⟩
  obtain ⟨h1, body, he, -⟩ := stepHandler_eq stepMax4 (by decide)
  rw [he] at hrun
  cases hrun
  have hne : ¬ (wrapInt (stepMax4.gameState.Step + 1) = stepMax4.gameState.Step + 1) := by
    decide
  exact hne hstep

/-- C8, amended: from every state satisfying the grid invariant, `stepHandler`
returns, leaving the grid that `nextGeneration` returns for the old grid as the
current grid, `running` false whatever it was before, `Width` and `Height`
unchanged, and the step counter incremented as a Go `int`: one higher when the
old counter is below `2^63 - 1`, and `-2^63` when the old counter is
`2^63 - 1`. -/
theorem stepHandler_spec (w : World) (hinv : Invariant w) :
    ∃ wn g w1 resp, nextGeneration w w.gameState.Grid = some (wn, g) ∧
      stepHandler w = some (w1, resp) ∧
      w1.heap = wn.heap ∧ w1.gameState.Grid = g ∧ w1.backupGrid = wn.backupGrid ∧
      w1.gameState.Step = wrapInt (w.gameState.Step + 1) ∧
      (-9223372036854775808 ≤ w.gameState.Step → w.gameState.Step < 9223372036854775807 →
        w1.gameState.Step = w.gameState.Step + 1) ∧
      (w.gameState.Step = 9223372036854775807 → w1.gameState.Step = -9223372036854775808) ∧
      w1.gameState.Running = false ∧
      w1.gameState.Width = w.gameState.Width ∧ w1.gameState.Height = w.gameState.Height ∧
      renderGrid w1.heap w1.gameState.Grid = some resp.body := by
  obtain ⟨h1, hrun, hinv1, -, -⟩ := nextGeneration_of_invariant w hinv
  obtain ⟨body, hbody⟩ := renderGrid_total hinv1.2.2.1 hinv1.dims.2.2.1
  simp only [swapped] at hbody
  refine ⟨_, _, ⟨h1, ⟨w.backupGrid, w.gameState.Width, w.gameState.Height, false,
    wrapInt (w.gameState.Step + 1)⟩, w.gameState.Grid⟩, ⟨200, "text/html", body⟩, hrun, ?_,
    rfl, rfl, rfl, rfl, fun h0 h1 => wrapInt_succ _ h0 h1,
    fun h => by rw [h]; rfl, rfl, rfl, rfl, hbody⟩
  unfold stepHandler
  simp only [hrun, Option.some_bind, Option.bind_eq_bind]
  simp [swapped, hbody]

theorem stepHandler_spec_witness :
    Invariant block4 ∧
    ∃ wn g w1 resp, nextGeneration block4 block4.gameState.Grid = some (wn, g) ∧
      stepHandler block4 = some (w1, resp) ∧
      w1.heap = wn.heap ∧ w1.gameState.Grid = g ∧ w1.backupGrid = wn.backupGrid ∧
      w1.gameState.Step = wrapInt (block4.gameState.Step + 1) ∧
      (-9223372036854775808 ≤ block4.gameState.Step →
        block4.gameState.Step < 9223372036854775807 →
        w1.gameState.Step = block4.gameState.Step + 1) ∧
      (block4.gameState.Step = 9223372036854775807 →
        w1.gameState.Step = -9223372036854775808) ∧
      w1.gameState.Running = false ∧
      w1.gameState.Width = block4.gameState.Width ∧
      w1.gameState.Height = block4.gameState.Height ∧
      renderGrid w1.heap w1.gameState.Grid = some resp.body :=
  ⟨by decide, stepHandler_spec block4 (by decide)⟩

/-- C9 as stated fails: `stepMax4` satisfies the grid invariant, is running
and has the step counter at `2^63 - 1`; `autoStepHandler` does not leave the
counter at the old value plus one (it wraps to `-2^63`). -/
theorem autoStepHandler_wraps :
    (Invariant stepMax4 ∧ stepMax4.gameState.Running = true) ∧
    ¬ ∃ w1 resp, autoStepHandler stepMax4 = some (w1, resp) ∧
      w1.gameState.Step = stepMax4.gameState.Step + 1 := by
  refine ⟨by decide, ?_⟩
  rintro ⟨w1, resp, hrun, hstep⟩
  obtain ⟨h1, body, he, -⟩ := (autoStepHandler_eq stepMax4 (by decide)).2 (by decide)
  rw [he] at hrun
  cases hrun
  have hne : ¬ (wrapInt (stepMax4.gameState.Step + 1) = stepMax4.gameState.Step + 1) := by
    decide
  exact hne hstep

/-- C9, amended: from every state satisfying the grid invariant,
`autoStepHandler` returns; when `running` is false it leaves the whole state as
it was and renders the current grid; when `running` is true it leaves the same
grid, the same step counter and the same response as `stepHandler` does from
that state (the grid returned by `nextGeneration`; the counter incremented as a
Go `int`: one higher when the old counter is below `2^63 - 1`, and `-2^63`
when it is `2^63 - 1`) and `running` stays true. -/
theorem autoStepHandler_spec (w : World) (hinv : Invariant w) :
    (w.gameState.Running = false →
      ∃ body, renderGrid w.heap w.gameState.Grid = some body ∧
        autoStepHandler w = some (w, ⟨200, "text/html", body⟩)) ∧
    (w.gameState.Running = true →
      ∃ wn g w1 resp w2 resp2, nextGeneration w w.gameState.Grid = some (wn, g) ∧
        autoStepHandler w = some (w1, resp) ∧ stepHandler w = some (w2, resp2) ∧
        w1.heap = wn.heap ∧ w1.gameState.Grid = g ∧
        w1.heap = w2.heap ∧ w1.gameState.Grid = w2.gameState.Grid ∧
        w1.gameState.Step = w2.gameState.Step ∧
        w1.gameState.Step = wrapInt (w.gameState.Step + 1) ∧
        (-9223372036854775808 ≤ w.gameState.Step → w.gameState.Step < 9223372036854775807 →
          w1.gameState.Step = w.gameState.Step + 1) ∧
        (w.gameState.Step = 9223372036854775807 →
          w1.gameState.Step = -9223372036854775808) ∧
        w1.gameState.Running = true ∧ resp = resp2) := by
  constructor
  · intro hr
    obtain ⟨body, hbody⟩ := renderGrid_total hinv.2.2.1 hinv.dims.2.2.1
    refine ⟨body, hbody, ?_⟩
    simp [autoStepHandler, hr, hbody]
  · intro hr
    obtain ⟨h1, hrun, hinv1, -, -⟩ := nextGeneration_of_invariant w hinv
    obtain ⟨body, hbody⟩ := renderGrid_total hinv1.2.2.1 hinv1.dims.2.2.1
    simp only [swapped] at hbody
    refine ⟨_, _, ⟨h1, ⟨w.backupGrid, w.gameState.Width, w.gameState.Height, true,
      wrapInt (w.gameState.Step + 1)⟩, w.gameState.Grid⟩, ⟨200, "text/html", body⟩,
      ⟨h1, ⟨w.backupGrid, w.gameState.Width, w.gameState.Height, false,
        wrapInt (w.gameState.Step + 1)⟩, w.gameState.Grid⟩, ⟨200, "text/html", body⟩,
      hrun, ?_, ?_, rfl, rfl, rfl, rfl, rfl, rfl, fun h0 h1 => wrapInt_succ _ h0 h1,
      fun h => by rw [h]; rfl, rfl, rfl⟩
    · unfold autoStepHandler
      simp only [hr, Bool.not_true, Bool.false_eq_true, if_false, hrun, Option.some_bind,
        Option.bind_eq_bind]
      simp [swapped, hbody, hr]
    · unfold stepHandler
      simp only [hrun, Option.some_bind, Option.bind_eq_bind]
      simp [swapped, hbody]

theorem autoStepHandler_spec_witness :
    (Invariant blinker3 ∧ blinker3.gameState.Running = false ∧
      Invariant block4 ∧ block4.gameState.Running = true) ∧
    (∃ body, renderGrid blinker3.heap blinker3.gameState.Grid = some body ∧
        autoStepHandler blinker3 = some (blinker3, ⟨200, "text/html", body⟩)) ∧
    (∃ wn g w1 resp w2 resp2, nextGeneration block4 block4.gameState.Grid = some (wn, g) ∧
        autoStepHandler block4 = some (w1, resp) ∧ stepHandler block4 = some (w2, resp2) ∧
        w1.heap = wn.heap ∧ w1.gameState.Grid = g ∧
        w1.heap = w2.heap ∧ w1.gameState.Grid = w2.gameState.Grid ∧
        w1.gameState.Step = w2.gameState.Step ∧
        w1.gameState.Step = wrapInt (block4.gameState.Step + 1) ∧
        (-9223372036854775808 ≤ block4.gameState.Step →
          block4.gameState.Step < 9223372036854775807 →
          w1.gameState.Step = block4.gameState.Step + 1) ∧
        (block4.gameState.Step = 9223372036854775807 →
          w1.gameState.Step = -9223372036854775808) ∧
        w1.gameState.Running = true ∧ resp = resp2) :=
  ⟨by decide, (autoStepHandler_spec blinker3 (by decide)).1 (by decide),
    (autoStepHandler_spec block4 (by decide)).2 (by decide)⟩

/-- C10: from every state satisfying the grid invariant, for `(x, y)` within
the grid and a request whose form fields parse to `x` and `y`,
`toggleCellHandler` negates `grid[y][x].Alive` and leaves every other cell of
the grid, the scratch buffer, the step counter, the running flag, `Width` and
`Height` unchanged; the response is what `renderCell` writes for the new value
of the cell at `(x, y)`. -/
theorem toggleCellHandler_spec (w : World) (hinv : Invariant w) (x y : Int)
    (hx0 : 0 ≤ x) (hx : x < w.gameState.Width) (hy0 : 0 ≤ y) (hy : y < w.gameState.Height)
    (r : ToggleRequest) (hform : r.formError = false) (hrx : r.x = some x) (hry : r.y = some y) :
    ∃ c w1 resp, load w.heap w.gameState.Grid y x = some c ∧
      toggleCellHandler w r = some (w1, resp) ∧
      load w1.heap w1.gameState.Grid y x = some ⟨!c.Alive⟩ ∧
      (∀ x1 y1 : Int, ¬ (x1 = x ∧ y1 = y) →
        load w1.heap w1.gameState.Grid y1 x1 = load w.heap w.gameState.Grid y1 x1) ∧
      (∀ x1 y1 : Int, load w1.heap w1.backupGrid y1 x1 = load w.heap w.backupGrid y1 x1) ∧
      w1.gameState = w.gameState ∧ w1.backupGrid = w.backupGrid ∧
      resp = ⟨200, "text/html", renderCell ⟨!c.Alive⟩ x y⟩ := by
  have hd := hinv.dims
  obtain ⟨-, -, ok, -, hnd⟩ := hinv
  obtain ⟨a, row, c, ha, hrow, hlen, hc, hl⟩ := load_of_range ok y x hy0 (by omega) hx0 (by omega)
  have hya : index w.gameState.Grid y = some a := by
    unfold index; rw [if_neg (by omega)]; exact ha
  have hxc : index row x = some c := by
    unfold index; rw [if_neg (by omega)]; exact hc
  have hxl : x < row.length := by omega
  have hyl : y.toNat < w.gameState.Grid.length := (List.getElem?_eq_some.1 ha).1
  have hnd2 := List.nodup_append.1 hnd
  have hst : storeAlive w.heap w.gameState.Grid y x (!c.Alive)
      = some (w.heap.set a (row.set x.toNat ⟨!c.Alive⟩)) := by
    simp [storeAlive, hya, hrow, hxc]
  have hnew := load_set_same (h := w.heap) hya hrow hx0 hxl ⟨!c.Alive⟩
  refine ⟨c, ⟨w.heap.set a (row.set x.toNat ⟨!c.Alive⟩), w.gameState, w.backupGrid⟩, _, hl, ?_,
    hnew, ?_, ?_, rfl, rfl, rfl⟩
  · unfold toggleCellHandler
    rw [hform, hrx, hry]
    have hrange : ¬ (x < 0 ∨ x ≥ w.gameState.Width ∨ y < 0 ∨ y ≥ w.gameState.Height) := by
      omega
    simp only [Bool.false_eq_true, if_false, if_neg hrange, hl, hst, hnew, Option.some_bind,
      Option.bind_eq_bind, Option.pure_def]
  · intro x1 y1 hne
    apply load_set_other hrow hx0
    intro hy1 hx1
    obtain ⟨hy10, hy1a⟩ := index_mem hy1
    have e : y.toNat = y1.toNat := List.getElem?_inj hyl hnd2.1 (by rw [ha, hy1a])
    exact hne ⟨hx1, by omega⟩
  · intro x1 y1
    apply load_set_other hrow hx0
    intro hy1 _
    obtain ⟨-, hy1a⟩ := index_mem hy1
    exact absurd (List.getElem?_mem hy1a) (hnd2.2.2 (List.getElem?_mem ha))

theorem toggleCellHandler_spec_witness :
    (Invariant block4 ∧ (0 : Int) ≤ 3 ∧ 3 < block4.gameState.Width ∧ (0 : Int) ≤ 1 ∧
      1 < block4.gameState.Height) ∧
    ∃ c w1 resp, load block4.heap block4.gameState.Grid 1 3 = some c ∧
      toggleCellHandler block4 ⟨false, some 3, some 1⟩ = some (w1, resp) ∧
      load w1.heap w1.gameState.Grid 1 3 = some ⟨!c.Alive⟩ ∧
      (∀ x1 y1 : Int, ¬ (x1 = 3 ∧ y1 = 1) →
        load w1.heap w1.gameState.Grid y1 x1 = load block4.heap block4.gameState.Grid y1 x1) ∧
      (∀ x1 y1 : Int, load w1.heap w1.backupGrid y1 x1 = load block4.heap block4.backupGrid y1 x1) ∧
      w1.gameState = block4.gameState ∧ w1.backupGrid = block4.backupGrid ∧
      resp = ⟨200, "text/html", renderCell ⟨!c.Alive⟩ 3 1⟩ :=
  ⟨by decide, toggleCellHandler_spec block4 (by decide) 3 1 (by decide) (by decide) (by decide)
    (by decide) ⟨false, some 3, some 1⟩ rfl rfl rfl⟩

/-- C11: from a state satisfying the grid invariant `toggleCellHandler` always
answers, and it answers 400 exactly when the form cannot be parsed, or `x` or
`y` is missing or not an integer (its `Atoi` fails), or `x < 0`, or
`x >= Width`, or `y < 0`, or `y >= Height`; whenever it answers 400 the whole
state (grid, scratch buffer, step counter, running flag) is as before. -/
theorem toggleCellHandler_error_iff (w : World) (hinv : Invariant w) (r : ToggleRequest) :
    ∃ w1 resp, toggleCellHandler w r = some (w1, resp) ∧
      (resp.status = 400 ↔
        (r.formError = true ∨ r.x = none ∨ r.y = none ∨
          (∃ x, r.x = some x ∧ (x < 0 ∨ x ≥ w.gameState.Width)) ∨
          (∃ y, r.y = some y ∧ (y < 0 ∨ y ≥ w.gameState.Height)))) ∧
      (resp.status = 400 → w1 = w) := by
  cases hf : r.formError with
  | true =>
    exact ⟨w, httpError "Invalid form data" 400, by simp [toggleCellHandler, hf],
      by simp [httpError], fun _ => rfl⟩
  | false =>
    cases hx : r.x with
    | none =>
      exact ⟨w, httpError "Invalid coordinates" 400, by simp [toggleCellHandler, hf, hx],
        by simp [httpError], fun _ => rfl⟩
    | some x =>
      cases hy : r.y with
      | none =>
        exact ⟨w, httpError "Invalid coordinates" 400, by simp [toggleCellHandler, hf, hx, hy],
          by simp [httpError], fun _ => rfl⟩
      | some y =>
        by_cases hr : x < 0 ∨ x ≥ w.gameState.Width ∨ y < 0 ∨ y ≥ w.gameState.Height
        · refine ⟨w, httpError "Invalid coordinates" 400,
            by simp [toggleCellHandler, hf, hx, hy, hr], ?_, fun _ => rfl⟩
          simp only [httpError, true_iff]
          rcases hr with h | h | h | h
          · exact Or.inr (Or.inr (Or.inr (Or.inl ⟨x, rfl, Or.inl h⟩)))
          · exact Or.inr (Or.inr (Or.inr (Or.inl ⟨x, rfl, Or.inr h⟩)))
          · exact Or.inr (Or.inr (Or.inr (Or.inr ⟨y, rfl, Or.inl h⟩)))
          · exact Or.inr (Or.inr (Or.inr (Or.inr ⟨y, rfl, Or.inr h⟩)))
        · obtain ⟨h1, body, hrun, -⟩ := toggleCellHandler_valid w hinv x y (by omega) (by omega)
            (by omega) (by omega) r hf hx hy
          refine ⟨_, _, hrun, ?_, ?_⟩
          · constructor
            · intro h; simp at h
            · rintro (h | h | h | ⟨x1, e, h⟩ | ⟨y1, e, h⟩)
              · cases h
              · cases h
              · cases h
              · cases e; exact absurd h (by omega)
              · cases e; exact absurd h (by omega)
          · intro h; simp at h

theorem toggleCellHandler_error_iff_witness :
    Invariant block4 ∧
    ∃ w1 resp, toggleCellHandler block4 ⟨false, some 4, some 1⟩ = some (w1, resp) ∧
      (resp.status = 400 ↔
        ((⟨false, some 4, some 1⟩ : ToggleRequest).formError = true ∨
          (⟨false, some 4, some 1⟩ : ToggleRequest).x = none ∨
          (⟨false, some 4, some 1⟩ : ToggleRequest).y = none ∨
          (∃ x, (⟨false, some 4, some 1⟩ : ToggleRequest).x = some x ∧
            (x < 0 ∨ x ≥ block4.gameState.Width)) ∨
          (∃ y, (⟨false, some 4, some 1⟩ : ToggleRequest).y = some y ∧
            (y < 0 ∨ y ≥ block4.gameState.Height)))) ∧
      (resp.status = 400 → w1 = block4) :=
  ⟨by decide, toggleCellHandler_error_iff block4 (by decide) ⟨false, some 4, some 1⟩⟩

/-- C12: from every state satisfying the grid invariant, `clearHandler` leaves
every cell of the grid dead, `Step = 0` and `Running = false`; `randomHandler`,
for every sequence of draws of `rand.Float32()` (values of type `float32` in
`[0, 1)`), leaves `Step = 0`, `Running = false` and the cell `(x, y)` alive
exactly when its own draw, number `y * Width + x`, is below `3/10`; both keep
`Width`, `Height`, the two buffers and their dimensions (the invariant). -/
theorem clear_and_random_spec (w : World) (hinv : Invariant w) (draws : Nat → ℚ)
    (hdraws : ∀ k, IsUnitFloat32 (draws k)) :
    (∃ w1 resp, clearHandler w = some (w1, resp) ∧
      (∀ x y : Nat, (x : Int) < w.gameState.Width → (y : Int) < w.gameState.Height →
        load w1.heap w1.gameState.Grid y x = some ⟨false⟩) ∧
      w1.gameState.Step = 0 ∧ w1.gameState.Running = false ∧
      w1.gameState.Width = w.gameState.Width ∧ w1.gameState.Height = w.gameState.Height ∧
      w1.gameState.Grid = w.gameState.Grid ∧ w1.backupGrid = w.backupGrid ∧ Invariant w1 ∧
      renderGrid w1.heap w1.gameState.Grid = some resp.body) ∧
    (∃ w1 resp, randomHandler w draws = some (w1, resp) ∧
      (∀ x y : Nat, (x : Int) < w.gameState.Width → (y : Int) < w.gameState.Height →
        load w1.heap w1.gameState.Grid y x
          = some ⟨decide (draws (y * w.gameState.Width.toNat + x) < 3 / 10)⟩) ∧
      w1.gameState.Step = 0 ∧ w1.gameState.Running = false ∧
      w1.gameState.Width = w.gameState.Width ∧ w1.gameState.Height = w.gameState.Height ∧
      w1.gameState.Grid = w.gameState.Grid ∧ w1.backupGrid = w.backupGrid ∧ Invariant w1 ∧
      renderGrid w1.heap w1.gameState.Grid = some resp.body) := by
  have hd := hinv.dims
  constructor
  · obtain ⟨h1, hrun, -, hlen, hcells⟩ := clearLoop_spec w hinv
    have hinv1 := hinv.keep_lengths h1 hlen false 0
    obtain ⟨body, hbody⟩ := renderGrid_total hinv1.2.2.1 hinv1.dims.2.2.1
    refine ⟨⟨h1, ⟨w.gameState.Grid, w.gameState.Width, w.gameState.Height, false, 0⟩,
      w.backupGrid⟩, ⟨200, "text/html", body⟩, ?_, ?_, rfl, rfl, rfl, rfl, rfl, rfl, hinv1, hbody⟩
    · unfold clearHandler
      simp only [hrun, Option.some_bind, Option.bind_eq_bind]
      simp only [hbody, Option.some_bind, Option.pure_def]
    · intro x y hx hy
      exact hcells y x (by omega) (by omega)
  · obtain ⟨s1, hrun, -, hlen, hcells⟩ := randomLoop_spec w hinv draws
    have hinv1 := hinv.keep_lengths s1.1 hlen false 0
    obtain ⟨body, hbody⟩ := renderGrid_total hinv1.2.2.1 hinv1.dims.2.2.1
    refine ⟨⟨s1.1, ⟨w.gameState.Grid, w.gameState.Width, w.gameState.Height, false, 0⟩,
      w.backupGrid⟩, ⟨200, "text/html", body⟩, ?_, ?_, rfl, rfl, rfl, rfl, rfl, rfl, hinv1, hbody⟩
    · unfold randomHandler
      simp only [hrun, Option.some_bind, Option.bind_eq_bind]
      simp only [hbody, Option.some_bind, Option.pure_def]
    · intro x y hx hy
      show load s1.1 w.gameState.Grid y x = _
      rw [hcells y x (by omega) (by omega),
        decide_eq_decide.2 (below_threshold_iff _ (hdraws _))]

theorem clear_and_random_spec_witness :
    (Invariant block4 ∧ ∀ k : Nat, IsUnitFloat32
      (if k % 2 = 0 then (10066329 : ℚ) / 2 ^ 25 else 10066330 / 2 ^ 25)) ∧
    (∃ w1 resp, clearHandler block4 = some (w1, resp) ∧
      (∀ x y : Nat, (x : Int) < block4.gameState.Width → (y : Int) < block4.gameState.Height →
        load w1.heap w1.gameState.Grid y x = some ⟨false⟩) ∧
      w1.gameState.Step = 0 ∧ w1.gameState.Running = false ∧
      w1.gameState.Width = block4.gameState.Width ∧
      w1.gameState.Height = block4.gameState.Height ∧
      w1.gameState.Grid = block4.gameState.Grid ∧ w1.backupGrid = block4.backupGrid ∧
      Invariant w1 ∧ renderGrid w1.heap w1.gameState.Grid = some resp.body) ∧
    (∃ w1 resp, randomHandler block4
        (fun k => if k % 2 = 0 then (10066329 : ℚ) / 2 ^ 25 else 10066330 / 2 ^ 25)
        = some (w1, resp) ∧
      (∀ x y : Nat, (x : Int) < block4.gameState.Width → (y : Int) < block4.gameState.Height →
        load w1.heap w1.gameState.Grid y x
          = some ⟨decide ((fun k : Nat =>
              if k % 2 = 0 then (10066329 : ℚ) / 2 ^ 25 else 10066330 / 2 ^ 25)
              (y * block4.gameState.Width.toNat + x) < 3 / 10)⟩) ∧
      w1.gameState.Step = 0 ∧ w1.gameState.Running = false ∧
      w1.gameState.Width = block4.gameState.Width ∧
      w1.gameState.Height = block4.gameState.Height ∧
      w1.gameState.Grid = block4.gameState.Grid ∧ w1.backupGrid = block4.backupGrid ∧
      Invariant w1 ∧ renderGrid w1.heap w1.gameState.Grid = some resp.body) :=
  have hdraws : ∀ k : Nat, IsUnitFloat32
      (if k % 2 = 0 then (10066329 : ℚ) / 2 ^ 25 else 10066330 / 2 ^ 25) := by
    intro k
    split
    · exact ⟨10066329, 25, by norm_num, by norm_num, by norm_num, by norm_num⟩
    · exact ⟨10066330, 25, by norm_num, by norm_num, by norm_num, by norm_num⟩
  ⟨⟨by decide, hdraws⟩, clear_and_random_spec block4 (by decide)
    (fun k => if k % 2 = 0 then (10066329 : ℚ) / 2 ^ 25 else 10066330 / 2 ^ 25) hdraws⟩

/-- C13: from every state, `toggleAutoHandler` negates the running flag and
leaves the heap, the grid, the scratch buffer, the step counter, `Width` and
`Height` unchanged, so applying it twice restores the original state; the
rendered button text is "Auto Stop" exactly when the new running value is true
and "Auto Start" exactly when it is false. -/
theorem toggleAutoHandler_spec (w : World) :
    (toggleAutoHandler w).1.gameState.Running = (!w.gameState.Running) ∧
    (toggleAutoHandler w).1.heap = w.heap ∧
    (toggleAutoHandler w).1.gameState.Grid = w.gameState.Grid ∧
    (toggleAutoHandler w).1.backupGrid = w.backupGrid ∧
    (toggleAutoHandler w).1.gameState.Step = w.gameState.Step ∧
    (toggleAutoHandler w).1.gameState.Width = w.gameState.Width ∧
    (toggleAutoHandler w).1.gameState.Height = w.gameState.Height ∧
    (toggleAutoHandler (toggleAutoHandler w).1).1 = w ∧
    ((toggleAutoHandler w).2.body = buttonMarkup "Auto Stop" ↔
      (toggleAutoHandler w).1.gameState.Running = true) ∧
    ((toggleAutoHandler w).2.body = buttonMarkup "Auto Start" ↔
      (toggleAutoHandler w).1.gameState.Running = false) := by
  refine ⟨rfl, rfl, rfl, rfl, rfl, rfl, rfl, ?_, ?_, ?_⟩
  · simp [toggleAutoHandler]
  · cases hr : w.gameState.Running
    · simp [toggleAutoHandler, hr]
    · simp [toggleAutoHandler, hr, buttonMarkup_ne.symm]
  · cases hr : w.gameState.Running
    · simp [toggleAutoHandler, hr, buttonMarkup_ne]
    · simp [toggleAutoHandler, hr]

/-- C14 as stated fails: `shadowedRouter` has a registered route with exactly
the method and path of the request `GET /static/app.js`, yet `ServeHTTP` does
not invoke the handler of any route: it delegates to the static-file server. -/
theorem static_shadows_route :
    (∃ route ∈ shadowedRouter.routes, route.Method = "GET" ∧ route.Path = "/static/app.js") ∧
    ¬ (∃ route ∈ shadowedRouter.routes, route.Method = "GET" ∧ route.Path = "/static/app.js" ∧
      shadowedRouter.ServeHTTP "GET" "/static/app.js" = Dispatch.handler route.Handler) := by
  constructor
  · exact ⟨⟨"GET", "/static/app.js", "appHandler"⟩, by simp [shadowedRouter, NewRouter,
      Router.HandleFunc], rfl, rfl⟩
  · rintro ⟨route, -, -, -, h⟩
    have e : shadowedRouter.ServeHTTP "GET" "/static/app.js" = Dispatch.static := by decide
    rw [e] at h
    cases h

/-- C14, amended: for every router and every request, if the path has the
reserved prefix "/static/" the request is delegated to the static-file
collaborator, whether or not a route is registered for it; otherwise, if the
(method, path) of the request equals that of some registered route, `ServeHTTP`
invokes the handler of the first such route in registration order; otherwise
the answer is "not found" (also when the path is registered only under another
method). -/
theorem ServeHTTP_spec {η : Type} (r : Router η) (method path : String) :
    (isStatic path = true → r.ServeHTTP method path = Dispatch.static) ∧
    (isStatic path = false →
      (∃ route ∈ r.routes, route.Method = method ∧ route.Path = path) →
      ∃ pre route post, r.routes = pre ++ route :: post ∧
        route.Method = method ∧ route.Path = path ∧
        (∀ q ∈ pre, ¬ (q.Method = method ∧ q.Path = path)) ∧
        r.ServeHTTP method path = Dispatch.handler route.Handler) ∧
    (isStatic path = false →
      (¬ ∃ route ∈ r.routes, route.Method = method ∧ route.Path = path) →
      r.ServeHTTP method path = Dispatch.notFound) := by
  have hm := matchRoute_spec r.routes method path
  refine ⟨?_, ?_, ?_⟩
  · intro hs
    simp [Router.ServeHTTP, hs]
  · rintro hs ⟨route, hin, h1, h2⟩
    cases hr : matchRoute r.routes method path with
    | none => exact absurd ⟨h1, h2⟩ (hm.2 hr route hin)
    | some h =>
      obtain ⟨pre, r1, post, e, g1, g2, g3, g4⟩ := hm.1 h hr
      refine ⟨pre, r1, post, e, g1, g2, g4, ?_⟩
      simp [Router.ServeHTTP, hs, hr, g3]
  · intro hs hnone
    cases hr : matchRoute r.routes method path with
    | none => simp [Router.ServeHTTP, hs, hr]
    | some h =>
      obtain ⟨pre, r1, post, e, g1, g2, -, -⟩ := hm.1 h hr
      exact absurd ⟨r1, by rw [e]; simp, g1, g2⟩ hnone

theorem ServeHTTP_spec_witness :
    (isStatic "/static/app.js" = true ∧ isStatic "/api/step" = false ∧
      (∃ route ∈ mainRouter.routes, route.Method = "POST" ∧ route.Path = "/api/step") ∧
      ¬ ∃ route ∈ mainRouter.routes, route.Method = "GET" ∧ route.Path = "/api/step") ∧
    shadowedRouter.ServeHTTP "GET" "/static/app.js" = Dispatch.static ∧
    (∃ pre route post, mainRouter.routes = pre ++ route :: post ∧
        route.Method = "POST" ∧ route.Path = "/api/step" ∧
        (∀ q ∈ pre, ¬ (q.Method = "POST" ∧ q.Path = "/api/step")) ∧
        mainRouter.ServeHTTP "POST" "/api/step" = Dispatch.handler route.Handler) ∧
    mainRouter.ServeHTTP "GET" "/api/step" = Dispatch.notFound :=
  have hpost : ∃ route ∈ mainRouter.routes, route.Method = "POST" ∧ route.Path = "/api/step" :=
    ⟨⟨"POST", "/api/step", "stepHandler"⟩, by
      simp [mainRouter, NewRouter, Router.HandleFunc], rfl, rfl⟩
  have hget : ¬ ∃ route ∈ mainRouter.routes, route.Method = "GET" ∧ route.Path = "/api/step" := by
    simp [mainRouter, NewRouter, Router.HandleFunc]
  ⟨⟨by decide, by decide, hpost, hget⟩,
    (ServeHTTP_spec shadowedRouter "GET" "/static/app.js").1 (by decide),
    (ServeHTTP_spec mainRouter "POST" "/api/step").2.1 (by decide) hpost,
    (ServeHTTP_spec mainRouter "GET" "/api/step").2.2 (by decide) hget⟩

/-- C15: when the grid has `height >= 1` rows of `width >= 1` cells and the
scratch buffer has the same dimensions (nothing else is assumed, the buffers
may even share rows), `nextGeneration` returns: no index into `grid` or
`backupGrid` is out of range.  Its loops run `cellStep` once for each of the
`width * height` cells, in row-major order; for each cell in range
`countNeighbors` returns, and the wrapped indices `ny`, `nx` lie within the
grid. -/
theorem nextGeneration_safe (w : World) (grid : Grid) (height width : Nat)
    (hh : 1 ≤ height)
    (ok : GridOK w.heap grid height width) (okb : GridOK w.heap w.backupGrid height width) :
    (∃ h1, nextGeneration w grid = some (swapped w h1, w.backupGrid) ∧
      (rowMajor height width).foldlM (fun h p => cellStep grid w.backupGrid p.2 h p.1) w.heap
        = some h1 ∧
      GridOK h1 grid height width ∧ GridOK h1 w.backupGrid height width) ∧
    (rowMajor height width).Nodup ∧ (rowMajor height width).length = width * height ∧
    (∀ x y : Nat, (x, y) ∈ rowMajor height width ↔ x < width ∧ y < height) ∧
    (∀ x y : Nat, x < width → y < height →
      (∃ n, countNeighbors w.heap grid x y = some n) ∧
      ∀ dx dy : Int,
        0 ≤ wrap (y + dy) height ∧ wrap (y + dy) height < height ∧
        0 ≤ wrap (x + dx) width ∧ wrap (x + dx) width < width ∧
        ∃ c, load w.heap grid (wrap (y + dy) height) (wrap (x + dx) width) = some c) := by
  obtain ⟨h1, hrun, hlen⟩ := gridLoop_safe ok okb
  refine ⟨⟨h1, ?_, ?_, ok.of_lengths hlen, okb.of_lengths hlen⟩, rowMajor_nodup _ _,
    rowMajor_length _ _, fun x y => rowMajor_mem _ _ x y, ?_⟩
  · unfold nextGeneration
    rw [rowLen_zero ok hh, ok.1]
    simp [hrun, swapped]
  · rw [← forRange_nested]
    exact hrun
  · intro x y hx hy
    have hxi : (x : Int) < width := by exact_mod_cast hx
    have hyi : (y : Int) < height := by exact_mod_cast hy
    refine ⟨⟨_, countNeighbors_eq ok (Int.natCast_nonneg x) hxi (Int.natCast_nonneg y) hyi⟩, ?_⟩
    intro dx dy
    obtain ⟨a1, a2⟩ := wrap_range x width dx (Int.natCast_nonneg x) hxi
    obtain ⟨b1, b2⟩ := wrap_range y height dy (Int.natCast_nonneg y) hyi
    obtain ⟨-, -, c, -, -, -, -, hl⟩ := load_of_range ok _ _ b1 b2 a1 a2
    exact ⟨b1, b2, a1, a2, c, hl⟩

theorem nextGeneration_safe_witness :
    (1 ≤ 3 ∧ GridOK blinker3.heap [0, 2, 4] 3 3 ∧ GridOK blinker3.heap blinker3.backupGrid 3 3) ∧
    ∃ h1, nextGeneration blinker3 [0, 2, 4] = some (swapped blinker3 h1, blinker3.backupGrid) ∧
      (rowMajor 3 3).foldlM (fun h p => cellStep [0, 2, 4] blinker3.backupGrid p.2 h p.1)
        blinker3.heap = some h1 ∧
      GridOK h1 [0, 2, 4] 3 3 ∧ GridOK h1 blinker3.backupGrid 3 3 :=
  ⟨by decide, (nextGeneration_safe blinker3 [0, 2, 4] 3 3 (by decide) (by decide) (by decide)).1⟩

/-- C16: in the initial state built by `main` and in every state reachable from
it by any sequence of Step, AutoStep, ToggleCell (valid or not), Clear,
Randomize and ToggleAutoRun, `Width` is 50, `Height` is 30, and both
`gameState.Grid` and `backupGrid` have exactly 30 rows of exactly 50 cells each;
moreover every operation returns from such a state. -/
theorem reachable_shape (w : World) (hr : Reachable w) :
    w.gameState.Width = 50 ∧ w.gameState.Height = 30 ∧
    GridOK w.heap w.gameState.Grid 30 50 ∧ GridOK w.heap w.backupGrid 30 50 ∧
    ∀ op : Op, ∃ w1, op.apply w = some w1 := by
  have key : Invariant w ∧ w.gameState.Width = 50 ∧ w.gameState.Height = 30 := by
    induction hr with
    | init => exact ⟨mainInit_invariant, rfl, rfl⟩
    | next w w1 op _ happ ih =>
      obtain ⟨w2, h2, hinv2, hW, hH⟩ := Op.apply_invariant w ih.1 op
      rw [happ] at h2
      cases h2
      exact ⟨hinv2, by rw [hW]; exact ih.2.1, by rw [hH]; exact ih.2.2⟩
  obtain ⟨hinv, hW, hH⟩ := key
  have ok := hinv.2.2.1
  have okb := hinv.2.2.2.1
  rw [hW, hH] at ok okb
  refine ⟨hW, hH, ok, okb, ?_⟩
  intro op
  obtain ⟨w1, h1, -⟩ := Op.apply_invariant w hinv op
  exact ⟨w1, h1⟩

theorem reachable_shape_witness :
    Reachable (toggleAutoHandler mainInit).1 ∧
    (toggleAutoHandler mainInit).1.gameState.Width = 50 ∧
    (toggleAutoHandler mainInit).1.gameState.Height = 30 ∧
    GridOK (toggleAutoHandler mainInit).1.heap (toggleAutoHandler mainInit).1.gameState.Grid 30 50 ∧
    GridOK (toggleAutoHandler mainInit).1.heap (toggleAutoHandler mainInit).1.backupGrid 30 50 ∧
    ∀ op : Op, ∃ w1, op.apply (toggleAutoHandler mainInit).1 = some w1 :=
  have hr : Reachable (toggleAutoHandler mainInit).1 :=
    Reachable.next mainInit _ Op.toggleAuto Reachable.init rfl
  ⟨hr, reachable_shape _ hr⟩

/-- C17: when `nextGeneration` is called on the current grid of a state
satisfying the invariant, then afterwards `gameState.Grid` is the buffer that
was the scratch buffer (the same row arrays) and holds the new generation,
`backupGrid` is the buffer that was the current grid and still holds, cell for
cell, the previous generation, and the two buffers share no row before and
after the call. -/
theorem double_buffer_swap (w : World) (hinv : Invariant w) :
    ∃ w1 r, nextGeneration w w.gameState.Grid = some (w1, r) ∧
      r = w1.gameState.Grid ∧ w1.gameState.Grid = w.backupGrid ∧
      w1.backupGrid = w.gameState.Grid ∧
      (∀ x y : Nat, (x : Int) < w.gameState.Width → (y : Int) < w.gameState.Height →
        ∃ c c0 n, load w1.heap w1.gameState.Grid y x = some c ∧
          load w.heap w.gameState.Grid y x = some c0 ∧
          countNeighbors w.heap w.gameState.Grid x y = some n ∧
          (c.Alive = true ↔
            (c0.Alive = true ∧ (n = 2 ∨ n = 3)) ∨ (c0.Alive = false ∧ n = 3))) ∧
      (∀ x y : Int, load w1.heap w1.backupGrid y x = load w.heap w.gameState.Grid y x) ∧
      (∀ a ∈ w.gameState.Grid, a ∉ w.backupGrid) ∧
      (∀ a ∈ w1.gameState.Grid, a ∉ w1.backupGrid) := by
  have hd := hinv.dims
  have ok := hinv.2.2.1
  have hnd := List.nodup_append.1 hinv.2.2.2.2
  obtain ⟨h1, hrun, hinv1, hfr, hcells⟩ := nextGeneration_of_invariant w hinv
  have hnd1 := List.nodup_append.1 hinv1.2.2.2.2
  refine ⟨_, _, hrun, rfl, rfl, rfl, ?_, ?_, fun a ha hb => hnd.2.2 ha hb,
    fun a ha hb => hnd1.2.2 ha hb⟩
  · intro x y hx hy
    have hxi : (x : Int) < w.gameState.Width.toNat := by omega
    have hyi : (y : Int) < w.gameState.Height.toNat := by omega
    obtain ⟨-, -, c0, -, -, -, -, hl⟩ := load_of_range ok (y : Int) (x : Int)
      (Int.natCast_nonneg y) hyi (Int.natCast_nonneg x) hxi
    refine ⟨_, c0, _, hcells y x (by omega) (by omega), hl,
      countNeighbors_eq ok (Int.natCast_nonneg x) hxi (Int.natCast_nonneg y) hyi, ?_⟩
    simp only [nextCell, liveAt_of_load hl]
    exact rule_iff _ _
  · intro x y
    exact load_agree (fun a ha => hfr a (fun hb => hnd.2.2 ha hb)) y x

theorem double_buffer_swap_witness :
    Invariant block4 ∧
    ∃ w1 r, nextGeneration block4 block4.gameState.Grid = some (w1, r) ∧
      r = w1.gameState.Grid ∧ w1.gameState.Grid = block4.backupGrid ∧
      w1.backupGrid = block4.gameState.Grid ∧
      (∀ x y : Nat, (x : Int) < block4.gameState.Width → (y : Int) < block4.gameState.Height →
        ∃ c c0 n, load w1.heap w1.gameState.Grid y x = some c ∧
          load block4.heap block4.gameState.Grid y x = some c0 ∧
          countNeighbors block4.heap block4.gameState.Grid x y = some n ∧
          (c.Alive = true ↔
            (c0.Alive = true ∧ (n = 2 ∨ n = 3)) ∨ (c0.Alive = false ∧ n = 3))) ∧
      (∀ x y : Int, load w1.heap w1.backupGrid y x = load block4.heap block4.gameState.Grid y x) ∧
      (∀ a ∈ block4.gameState.Grid, a ∉ block4.backupGrid) ∧
      (∀ a ∈ w1.gameState.Grid, a ∉ w1.backupGrid) :=
  ⟨by decide, double_buffer_swap block4 (by decide)⟩

/-- C18: for a well-formed grid with at least one row, whose cells are given
by `cells`, the bytes `renderGrid` writes are exactly the concatenation, in
row-major order (`y` from 0 to `height - 1`, within each `y` the `x` from 0 to
`width - 1`), of the bytes `renderCell(grid[y][x], x, y)` writes: one element
per cell, carrying the cell's `x` and `y`, with class "cell alive" when the
cell is alive and class "cell" otherwise. -/
theorem renderGrid_refines (h : Heap) (grid : Grid) (height width : Nat)
    (cells : Nat → Nat → Cell) (hh : 1 ≤ height) (ok : GridOK h grid height width)
    (hcells : ∀ x y : Nat, x < width → y < height → load h grid y x = some (cells y x)) :
    renderGrid h grid = some (renderGridSpec cells height width) ∧
    ((rowMajor height width).map (fun p => renderCell (cells p.2 p.1) p.1 p.2)).length
      = width * height ∧
    (∀ (c : Cell) (x y : Int), renderCell c x y
      = cellMarkup (if c.Alive then "cell alive" else "cell") x y) := by
  refine ⟨?_, by rw [List.length_map, rowMajor_length], renderCell_class⟩
  unfold renderGrid renderGridSpec
  rw [rowLen_zero ok hh, ok.1]
  simp only [Option.some_bind, Option.bind_eq_bind]
  rw [forRange_nested]
  apply foldlM_parts
  intro p hp s
  have hr := (rowMajor_mem height width p.1 p.2).1 hp
  unfold renderStep
  rw [hcells p.1 p.2 hr.1 hr.2, renderCell_class]
  rfl

theorem renderGrid_refines_witness :
    (1 ≤ 3 ∧ GridOK blinker3.heap [0, 2, 4] 3 3) ∧
    renderGrid blinker3.heap [0, 2, 4]
      = some (renderGridSpec (fun _ x => ⟨decide (x = 1)⟩) 3 3) :=
  ⟨by decide, (renderGrid_refines blinker3.heap [0, 2, 4] 3 3 (fun _ x => ⟨decide (x = 1)⟩)
    (by decide) (by decide)
    (by intro x y hx hy; interval_cases x <;> interval_cases y <;> decide)).1⟩

/-- C19: the eight wrapped positions that `countNeighbors` inspects for a cell
`(x, y)` of a well-formed grid (it returns the number of live ones among them)
are pairwise distinct and all different from `(x, y)` if and only if
`width >= 3` and `height >= 3`; on narrower grids some position occurs more
than once.  On a 1x1 grid whose single cell is alive `countNeighbors(g, 0, 0)`
is 8, and `nextGeneration` makes that cell dead. -/
theorem neighbor_positions_distinct_iff (h : Heap) (grid : Grid) (height width x y : Nat)
    (ok : GridOK h grid height width) (hx : x < width) (hy : y < height) :
    countNeighbors h grid x y = some (((neighborPositions height width x y).countP
      (fun p => liveAt h grid p.2 p.1) : Nat) : Int) ∧
    (((neighborPositions height width x y).Nodup ∧
        ((x : Int), (y : Int)) ∉ neighborPositions height width x y)
      ↔ (3 ≤ width ∧ 3 ≤ height)) ∧
    (¬ (3 ≤ width ∧ 3 ≤ height) → ¬ (neighborPositions height width x y).Nodup) ∧
    (∀ (w : World) (g : Grid), GridOK w.heap g 1 1 → GridOK w.heap w.backupGrid 1 1 →
      (∀ a ∈ g, a ∉ w.backupGrid) → load w.heap g 0 0 = some ⟨true⟩ →
      countNeighbors w.heap g 0 0 = some 8 ∧
      ∃ w1 r, nextGeneration w g = some (w1, r) ∧ load w1.heap r 0 0 = some ⟨false⟩) := by
  have hxi : (x : Int) < width := by exact_mod_cast hx
  have hyi : (y : Int) < height := by exact_mod_cast hy
  obtain ⟨p1, p2⟩ := neighborPositions_nodup height width x y (Int.natCast_nonneg x) hxi
    (Int.natCast_nonneg y) hyi
  refine ⟨?_, ?_, ?_, ?_⟩
  · rw [countNeighbors_eq ok (Int.natCast_nonneg x) hxi (Int.natCast_nonneg y) hyi,
      liveNeighbors_positions]
  · rw [p1]; constructor <;> intro hc <;> constructor <;> omega
  · intro hn
    exact p2 (fun hc => hn ⟨by omega, by omega⟩)
  · intro w g ok1 okb1 hdisj hl
    have hf : ∀ x y : Nat, x < 1 → y < 1 → load w.heap g y x = some ⟨(fun _ _ => true) (y : Int) (x : Int)⟩ := by
      intro x y hx1 hy1
      have ex : x = 0 := by omega
      have ey : y = 0 := by omega
      subst ex ey
      exact hl
    have hnd : w.backupGrid.Nodup := by
      have hlen := okb1.1
      match hb : w.backupGrid, hlen with
      | [a], _ => simp
    constructor
    · rw [countNeighbors_eq ok1 (x := 0) (y := 0) (le_refl 0) (by decide) (le_refl 0) (by decide),
        liveNeighbors_eq_countOn (fun _ _ => true) (liveAt_board _ hf) (le_refl 0) (by decide)
          (le_refl 0) (by decide)]
      exact congrArg (fun n : Nat => some (n : Int)) countOn_full1
    · obtain ⟨h1, hrun, -, -, hcells⟩ := nextGeneration_board w g 1 1 ok1 okb1 (by decide) hnd
        hdisj (fun _ _ => true) hf
      refine ⟨_, _, hrun, ?_⟩
      have := hcells 0 0 (by decide) (by decide)
      simp only [swapped]
      rw [show ((0 : Nat) : Int) = 0 from rfl] at this
      rw [this]
      exact congrArg (fun b => some (Cell.mk b))
        (show rule true ((countOn (fun _ _ => true) 1 1 0 0 : Nat) : Int) = false by
          rw [countOn_full1]; rfl)

theorem neighbor_positions_distinct_iff_witness :
    (GridOK single1.heap [0] 1 1 ∧ GridOK single1.heap single1.backupGrid 1 1 ∧
      load single1.heap [0] 0 0 = some ⟨true⟩) ∧
    countNeighbors single1.heap [0] 0 0 = some 8 ∧
    ∃ w1 r, nextGeneration single1 [0] = some (w1, r) ∧ load w1.heap r 0 0 = some ⟨false⟩ :=
  ⟨by decide, (neighbor_positions_distinct_iff single1.heap [0] 1 1 0 0 (by decide) (by decide)
    (by decide)).2.2.2 single1 [0] (by decide) (by decide) (by decide) (by decide)⟩

/-- C20: on a state satisfying the invariant whose grid is at least 4 wide and
4 high and whose live cells are exactly the three vertically consecutive cells
`(x0, y0 - 1)`, `(x0, y0)`, `(x0, y0 + 1)` (coordinates modulo the dimensions),
`nextGeneration` returns the grid whose live cells are exactly `(x0 - 1, y0)`,
`(x0, y0)`, `(x0 + 1, y0)`, and a second application returns the original grid
again. -/
theorem blinker_period_two (w : World) (hinv : Invariant w) (x0 y0 : Int)
    (hw : 4 ≤ w.gameState.Width) (hh : 4 ≤ w.gameState.Height)
    (hcells : ∀ x y : Nat, (x : Int) < w.gameState.Width → (y : Int) < w.gameState.Height →
      load w.heap w.gameState.Grid y x
        = some ⟨blinkerV x0 y0 w.gameState.Height w.gameState.Width y x⟩) :
    ∃ w1 r1 w2 r2, nextGeneration w w.gameState.Grid = some (w1, r1) ∧
      (∀ x y : Nat, (x : Int) < w.gameState.Width → (y : Int) < w.gameState.Height →
        load w1.heap r1 y x
          = some ⟨blinkerH x0 y0 w.gameState.Height w.gameState.Width y x⟩) ∧
      nextGeneration w1 r1 = some (w2, r2) ∧
      (∀ x y : Nat, (x : Int) < w.gameState.Width → (y : Int) < w.gameState.Height →
        load w2.heap r2 y x = load w.heap w.gameState.Grid y x) := by
  obtain ⟨h1, hrun1, hinv1, -, hc1⟩ := nextGeneration_board_of_invariant w hinv
    (blinkerV x0 y0 w.gameState.Height w.gameState.Width) hcells
  have first : ∀ x y : Nat, (x : Int) < w.gameState.Width → (y : Int) < w.gameState.Height →
      load h1 w.backupGrid y x
        = some ⟨blinkerH x0 y0 w.gameState.Height w.gameState.Width y x⟩ := by
    intro x y hx hy
    rw [hc1 x y hx hy, rule_blinkerV x0 y0 _ _ x y hw hh (Int.natCast_nonneg x) hx
      (Int.natCast_nonneg y) hy]
  obtain ⟨h2, hrun2, -, -, hc2⟩ := nextGeneration_board_of_invariant (swapped w h1) hinv1
    (blinkerH x0 y0 w.gameState.Height w.gameState.Width) first
  refine ⟨_, _, _, _, hrun1, first, hrun2, ?_⟩
  intro x y hx hy
  have := hc2 x y hx hy
  simp only [swapped] at this ⊢
  rw [this, hcells x y hx hy, rule_blinkerH x0 y0 _ _ x y hw hh (Int.natCast_nonneg x) hx
    (Int.natCast_nonneg y) hy]

theorem blinker_period_two_witness :
    (Invariant blinker4 ∧ 4 ≤ blinker4.gameState.Width ∧ 4 ≤ blinker4.gameState.Height) ∧
    ∃ w1 r1 w2 r2, nextGeneration blinker4 blinker4.gameState.Grid = some (w1, r1) ∧
      (∀ x y : Nat, (x : Int) < blinker4.gameState.Width →
        (y : Int) < blinker4.gameState.Height →
        load w1.heap r1 y x
          = some ⟨blinkerH 0 0 blinker4.gameState.Height blinker4.gameState.Width y x⟩) ∧
      nextGeneration w1 r1 = some (w2, r2) ∧
      (∀ x y : Nat, (x : Int) < blinker4.gameState.Width →
        (y : Int) < blinker4.gameState.Height →
        load w2.heap r2 y x = load blinker4.heap blinker4.gameState.Grid y x) :=
  ⟨by decide, blinker_period_two blinker4 (by decide) 0 0 (by decide) (by decide)
    (by
      intro x y hx hy
      have hx4 : x < 4 := by
        have e : (x : Int) < 4 := hx
        omega
      have hy4 : y < 4 := by
        have e : (y : Int) < 4 := hy
        omega
      interval_cases x <;> interval_cases y <;> decide)⟩

end GameOfLife
